import Mathlib

/-!
Shallow embedding of the text-to-speech assembly pipeline of this repository.

The repository contains two near-duplicate implementations of the pipeline:
* `src/services/geminiService.ts` — embedded below in namespace `GS`;
* `src/unnamed/part_000` — embedded below in namespace `P0`.

JavaScript strings are modelled as `List Char` (`Str`); the `\s` character
class and `String.prototype.trim` are modelled over the ASCII whitespace
characters (space, tab, newline, carriage return, vertical tab, form feed),
which covers every character occurring in the scripts the pipeline handles.
Remote synthesis calls are modelled by an oracle argument giving, per block
index, either a thrown error message or the decoded audio bytes.
-/

namespace FBot

/-- A JavaScript string, modelled as its list of characters. -/
abbrev Str := List Char

/-- The JavaScript `\s` class (ASCII part), also used by `String.prototype.trim`. -/
def isWs (c : Char) : Bool :=
  c = ' ' || c = '\t' || c = '\n' || c = '\r' || c = Char.ofNat 11 || c = Char.ofNat 12

/-- Sentence-terminator characters used by the sentence-splitting regexes: `.`, `!`, `?`. -/
def isTerm (c : Char) : Bool := c = '.' || c = '!' || c = '?'

/-- The quote characters accepted after a terminator run by the regex `["']?`. -/
def isQuote (c : Char) : Bool := c = Char.ofNat 34 || c = Char.ofNat 39

/-- ASCII letters, the `A-Za-z` part of the speaker-name character classes. -/
def isAlpha (c : Char) : Bool :=
  ('A' ≤ c && c ≤ 'Z') || ('a' ≤ c && c ≤ 'z')

/-- JavaScript `String.prototype.toLowerCase` (ASCII behaviour). -/
def lower (s : Str) : Str := s.map Char.toLower

/-- JavaScript `String.prototype.trim`: strip whitespace from both ends. -/
def trim (s : Str) : Str :=
  ((s.dropWhile isWs).reverse.dropWhile isWs).reverse

/-- Remove every whitespace character (used to state "up to whitespace" equalities). -/
def stripWs (s : Str) : Str := s.filter (fun c => !isWs c)

/-- JavaScript `haystack.includes(needle)`: substring containment. -/
def includes (hay needle : Str) : Bool :=
  if needle.isPrefixOf hay then true
  else
    match hay with
    | [] => false
    | _ :: t => includes t needle

/-- JavaScript `text.split('\n')`. -/
def splitLines : Str → List Str
  | [] => [[]]
  | c :: cs =>
    if c = '\n' then [] :: splitLines cs
    else
      match splitLines cs with
      | l :: ls => (c :: l) :: ls
      | [] => [[c]]

/-- A `(speaker, text)` block, `DialogueBlock` in the source. -/
structure Block where
  speaker : Str
  text : Str
deriving DecidableEq, Repr

/-- The `multiSpeakerConfig.speakers` list: `(name, voice)` pairs. -/
abbrev SpeakerMap := List (Str × Str)

end FBot

namespace FBot.GS

/-! ## src/services/geminiService.ts — the segmenter `parseDialogueIntoChunks` -/

/-- Characters matched by `[A-Za-z\s]` in the speaker regex. -/
def isNameChar (c : Char) : Bool := isAlpha c || isWs c

/-- `line.match(/^(\*{0,2})([A-Za-z\s]+)(\*{0,2}):\s*(.*)$/)`, returning
(group 2, group 4) on success: up to two leading asterisks, a non-empty run of
letters and whitespace, up to two asterisks, a colon, then the rest of the line
with its leading whitespace stripped by the greedy `\s*`. -/
def speakerMatch (l : Str) : Option (Str × Str) :=
  let stars1 := l.takeWhile (· = '*')
  if 2 < stars1.length then none else
  let r1 := l.drop stars1.length
  let name := r1.takeWhile isNameChar
  if name.isEmpty then none else
  let r2 := r1.drop name.length
  let stars2 := r2.takeWhile (· = '*')
  if 2 < stars2.length then none else
  match r2.drop stars2.length with
  | c :: rest => if c = ':' then some (name, rest.dropWhile isWs) else none
  | [] => none

/-- Left-to-right scan implementing the global regex
`/[^.!?]+[.!?]+["']?|[^.!?]+$/g` used to split a long buffer into sentence-like
units: a maximal run of non-terminators, a maximal run of terminators, an
optional single quote; a trailing run with no terminator is its own unit;
terminator characters at a position where no unit can start are skipped.
`accR` and `accT` hold (reversed) the non-terminator and terminator runs of the
unit currently being scanned. -/
def ssGo : Str → Str → Str → List Str
  | [], accR, accT =>
    if accT.isEmpty then (if accR.isEmpty then [] else [accR.reverse])
    else [accR.reverse ++ accT.reverse]
  | c :: cs, accR, accT =>
    if accT.isEmpty then
      if isTerm c then (if accR.isEmpty then ssGo cs [] [] else ssGo cs accR [c])
      else ssGo cs (c :: accR) []
    else
      if isTerm c then ssGo cs accR (c :: accT)
      else if isQuote c then (accR.reverse ++ accT.reverse ++ [c]) :: ssGo cs [] []
      else (accR.reverse ++ accT.reverse) :: ssGo cs [c] []

/-- `currentBuffer.match(/[^.!?]+[.!?]+["']?|[^.!?]+$/g)` as a list of matches. -/
def splitSentences (s : Str) : List Str := ssGo s [] []

/-- `currentBuffer.match(...) || [currentBuffer]`. -/
def sentencesOf (buf : Str) : List Str :=
  match splitSentences buf with
  | [] => [buf]
  | l => l

/-- `const MAX_CHAR_LIMIT = 1500`. -/
def MAX_CHAR_LIMIT : Nat := 1500

/-- The greedy packing loop inside `pushBuffer`: pack consecutive sentence
units into `tempChunk`; when appending the next unit would exceed the limit,
push the current chunk (trimmed, with no emptiness guard — the source pushes
unconditionally here) and restart from that unit; finally push the last chunk
if its trim is non-empty. -/
def packGo (sp : Str) : List Str → Str → List Block
  | [], temp => if (trim temp).isEmpty then [] else [⟨sp, trim temp⟩]
  | s :: rest, temp =>
    if MAX_CHAR_LIMIT < (temp ++ s).length then ⟨sp, trim temp⟩ :: packGo sp rest s
    else packGo sp rest (temp ++ s)

/-- The `pushBuffer` closure: nothing if the trimmed buffer is empty; the
sentence-splitting path if the (untrimmed) buffer exceeds `MAX_CHAR_LIMIT`;
otherwise a single block with the trimmed buffer. -/
def pushBuffer (sp buf : Str) : List Block :=
  if (trim buf).isEmpty then []
  else if MAX_CHAR_LIMIT < buf.length then packGo sp (sentencesOf buf) []
  else [⟨sp, trim buf⟩]

/-- Speaker-name canonicalization: any name containing `roberta`
(case-insensitively) becomes `Roberta Erickson`, else `milton` becomes
`Milton Dilts`, else the raw (trimmed) name is kept. -/
def canonSpeaker (raw : Str) : Str :=
  if includes (lower raw) ("roberta".toList) then "Roberta Erickson".toList
  else if includes (lower raw) ("milton".toList) then "Milton Dilts".toList
  else raw

/-- The per-line loop of `parseDialogueIntoChunks`: on a speaker line, flush
the buffer and start a new one seeded with the trailing text plus a space; on a
non-blank other line, append the trimmed line plus a newline to the buffer. -/
def parseLines : List Str → Str → Str → List Block
  | [], sp, buf => pushBuffer sp buf
  | l :: ls, sp, buf =>
    match speakerMatch l with
    | some (name, rest) =>
      pushBuffer sp buf ++ parseLines ls (canonSpeaker (trim name)) (rest ++ [' '])
    | none =>
      if (trim l).isEmpty then parseLines ls sp buf
      else parseLines ls sp (buf ++ trim l ++ ['\n'])

/-- `"Narrator"`, the default speaker. -/
def narrator : Str := "Narrator".toList

/-- `parseDialogueIntoChunks` from src/services/geminiService.ts, including the
fallback that treats the whole text as one `Narrator` buffer when the per-line
loop produced no blocks and the text is non-blank. -/
def parseDialogueIntoChunks (text : Str) : List Block :=
  let blocks := parseLines (splitLines text) narrator []
  if blocks.isEmpty && !(trim text).isEmpty then pushBuffer narrator text
  else blocks

end FBot.GS

namespace FBot

/-! ## Shared pipeline observables -/

/-- The callback invocations a pipeline run makes, in order. -/
inductive Ev where
  | chunk (bytes : List Nat)
  | progress (v : Nat)
  | warn
  | error (msg : Str)
  | complete
deriving DecidableEq, Repr

/-- Operations performed on the output sink (`FileSystemWritableFileStream`). -/
inductive SinkOp where
  | write (bytes : List Nat)
  | seek (pos : Nat)
  | close
deriving DecidableEq, Repr

/-- The observable outcome of one pipeline run: callback events in order, sink
operations in order, the synthesis requests `(text, voice)` issued, the
accumulated `totalSize`, and the fatal error (if the run aborted). -/
structure RunResult where
  events : List Ev
  sinkOps : List SinkOp
  reqs : List (Str × Str)
  total : Nat
  fatal : Option Str
deriving DecidableEq, Repr

/-- JavaScript `Math.round((k / n) * 100)` for `0 ≤ k ≤ n`, computed over the
rationals: `round(100 * k / n) = (200 * k + n) / (2 * n)` in `Nat` division. -/
def jsRound100 (k n : Nat) : Nat := (200 * k + n) / (2 * n)

/-- Little-endian 16-bit field of a WAV header. -/
def le16 (v : Nat) : List Nat := [v % 256, v / 256 % 256]

/-- Little-endian 32-bit field of a WAV header. -/
def le32 (v : Nat) : List Nat := [v % 256, v / 256 % 256, v / 65536 % 256, v / 16777216 % 256]

/-- Modelled from the spec: `createWavHeader` lives in `src/utils/audio`, which
is not under `src/`. Per the spec (§3 Header, §4.1 Header Codec) it is a pure
function building a fixed-size (44-byte, per the call-site comment
`Placeholder header (44 bytes)`) byte block encoding channel count, sample
rate, bits per sample and the total payload byte count — the standard
RIFF/WAVE layout, with the payload byte count little-endian at offset 40 and
the RIFF chunk size (36 + payload) at offset 4. -/
def createWavHeader (dataLength numChannels sampleRate bitsPerSample : Nat) : List Nat :=
  let bytesPerSample := bitsPerSample / 8
  let byteRate := sampleRate * numChannels * bytesPerSample
  let blockAlign := numChannels * bytesPerSample
  [82, 73, 70, 70] ++ le32 (36 + dataLength) ++
  [87, 65, 86, 69, 102, 109, 116, 32] ++ le32 16 ++ le16 1 ++ le16 numChannels ++
  le32 sampleRate ++ le32 byteRate ++ le16 blockAlign ++ le16 bitsPerSample ++
  [100, 97, 116, 97] ++ le32 dataLength

/-- The payload-size field of a header block: bytes 40–43, little-endian. -/
def declaredSize (h : List Nat) : Nat :=
  h.getD 40 0 + 256 * h.getD 41 0 + 65536 * h.getD 42 0 + 16777216 * h.getD 43 0

/-- Overwrite `bs` into `contents` starting at `pos` (the sink's write). -/
def writeAt (contents : List Nat) (pos : Nat) (bs : List Nat) : List Nat :=
  contents.take pos ++ bs ++ contents.drop (pos + bs.length)

/-- Replay a list of sink operations against an initially empty file with the
cursor at offset zero, yielding the final file contents. -/
def replayGo : List SinkOp → List Nat → Nat → List Nat
  | [], contents, _ => contents
  | .write bs :: ops, contents, pos => replayGo ops (writeAt contents pos bs) (pos + bs.length)
  | .seek p :: ops, contents, _ => replayGo ops contents p
  | .close :: ops, contents, pos => replayGo ops contents pos

/-- Final file contents produced by a run's sink operations. -/
def replaySink (ops : List SinkOp) : List Nat := replayGo ops [] 0

end FBot

namespace FBot.GS

/-! ## src/services/geminiService.ts — `generateSpeech` -/

/-- Scan for the first `)` or `]`; fails at a newline (the lazy `.*?` cannot
cross a line terminator) or at end of input. Returns the remainder after the
closer. -/
def findCloser : Str → Option Str
  | [] => none
  | c :: cs =>
    if c = ')' || c = ']' then some cs
    else if c = '\n' then none
    else findCloser cs

/-- `block.text.replace(/^\s*(?:[\(\[].*?[\)\]])\s*/, "")`: if the first
non-whitespace character is `(` or `[` and a `)` or `]` follows on the same
line, drop everything through that closer and the whitespace after it. -/
def cleanText (s : Str) : Str :=
  match s.dropWhile isWs with
  | c :: rest =>
    if c = '(' || c = '[' then
      match findCloser rest with
      | some rem => rem.dropWhile isWs
      | none => s
    else s
  | [] => s

/-- The dynamic voice selection in `generateSpeech`: default `Kore`; a speaker
whose lowercase name contains `roberta` gets `Aoede`; else `milton` gets
`Enceladus`; else an exact-name hit in the caller's config gets that voice. -/
def resolveVoice (speaker : Str) (cfg : Option SpeakerMap) : Str :=
  let sp := lower speaker
  if includes sp ("roberta".toList) then "Aoede".toList
  else if includes sp ("milton".toList) then "Enceladus".toList
  else
    match cfg with
    | some m =>
      match m.find? (fun e => e.1 == speaker) with
      | some e => e.2
      | none => "Kore".toList
    | none => "Kore".toList

/-- The sequential per-block loop of `generateSpeech`. `synth i` is the remote
synthesis stream for block `i`: either a thrown error message or the list of
decoded audio chunks. A blank cleaned text skips the block entirely (no
synthesis call, no progress). A thrown synthesis error propagates to the
run-level catch (`fatal`), dropping the rest of the loop. -/
def gsLoop (synth : Nat → Except Str (List (List Nat))) (cfg : Option SpeakerMap)
    (useSink : Bool) (n : Nat) : List Block → Nat → RunResult
  | [], _ => ⟨[], [], [], 0, none⟩
  | b :: bs, i =>
    let cleaned := cleanText b.text
    if (trim cleaned).isEmpty then gsLoop synth cfg useSink n bs (i + 1)
    else
      let voice := resolveVoice b.speaker cfg
      match synth i with
      | .error e => ⟨[], [], [(cleaned, voice)], 0, some e⟩
      | .ok chunks =>
        let rest := gsLoop synth cfg useSink n bs (i + 1)
        ⟨(if useSink then [] else chunks.map Ev.chunk) ++
           Ev.progress (jsRound100 (i + 1) n) :: rest.events,
         (if useSink then chunks.map SinkOp.write else []) ++ rest.sinkOps,
         (cleaned, voice) :: rest.reqs,
         (chunks.map List.length).sum + rest.total,
         rest.fatal⟩

/-- `generateSpeech` from src/services/geminiService.ts. `useSink` models the
presence of the `fileHandle` argument; `finalizeFails` models the header
rewrite (`seek(0)` plus header write) throwing, which the source catches and
turns into a `console.warn`. On a fatal error the catch calls `onError` and
nothing else: no finalization, no close, no `onComplete`. -/
def generateSpeech (synth : Nat → Except Str (List (List Nat))) (text : Str)
    (cfg : Option SpeakerMap) (useSink finalizeFails : Bool) : RunResult :=
  let blocks := parseDialogueIntoChunks text
  let out := gsLoop synth cfg useSink blocks.length blocks 0
  let initOps : List SinkOp :=
    if useSink then [.write (createWavHeader 0 1 24000 16)] else []
  match out.fatal with
  | some e => ⟨out.events ++ [.error e], initOps ++ out.sinkOps, out.reqs, out.total, some e⟩
  | none =>
    let finEvs : List Ev := if useSink && finalizeFails then [.warn] else []
    let finOps : List SinkOp :=
      if useSink then
        (if finalizeFails then [.close]
         else [.seek 0, .write (createWavHeader out.total 1 24000 16), .close])
      else []
    ⟨out.events ++ finEvs ++ [.complete], initOps ++ out.sinkOps ++ finOps,
     out.reqs, out.total, none⟩

end FBot.GS

namespace FBot.P0

/-! ## src/unnamed/part_000 — segmenter, cleaner and `generateSpeech` -/

/-- Characters matched by `[A-Za-z√Ä-√ñ√ò-√∂√∏-√ø ]` (the Latin-1 ranges
`À-Ö`, `Ø-ö`, `ø-ÿ` in the source, mojibake aside) in the part_000 speaker
regex `^([A-Za-z...]+):/i`. The `i` flag adds nothing for these
self-case-closed ranges. -/
def isNameChar (c : Char) : Bool :=
  isAlpha c || c = ' ' ||
  (0xC0 ≤ c.toNat && c.toNat ≤ 0xD6) ||
  (0xD8 ≤ c.toNat && c.toNat ≤ 0xF6) ||
  (0xF8 ≤ c.toNat && c.toNat ≤ 0xFF)

/-- `line.match(/^([A-Za-z ...]+):/i)`: a non-empty leading run of name
characters directly followed by a colon; returns group 1 (the name). -/
def speakerMatch (l : Str) : Option Str :=
  let name := l.takeWhile isNameChar
  if name.isEmpty then none
  else
    match l.drop name.length with
    | c :: _ => if c = ':' then some name else none
    | [] => none

/-- `line.replace(speakerRegex, '').trim()`: the line after the matched
`name:` prefix, trimmed. -/
def restAfterName (l : Str) : Str :=
  trim (l.drop ((l.takeWhile isNameChar).length + 1))

/-- First pass of part_000's `parseDialogueIntoChunks`: accumulate per-speaker
buffers, joining continuation lines with a single space (note the space is
prepended even to an empty buffer), flushing the trimmed buffer on each
speaker change and at the end. -/
def parseLines : List Str → Str → Str → List Block
  | [], sp, buf => if (trim buf).isEmpty then [] else [⟨sp, trim buf⟩]
  | l :: ls, sp, buf =>
    match speakerMatch l with
    | some name =>
      (if (trim buf).isEmpty then [] else [⟨sp, trim buf⟩]) ++
        parseLines ls (trim name) (restAfterName l)
    | none =>
      if (trim l).isEmpty then parseLines ls sp buf
      else parseLines ls sp (buf ++ ' ' :: trim l)

/-- Scan implementing part_000's sentence regex `/[^.!?]+[.!?]+|[^.!?]+$/g`
(same as the geminiService one but with no optional quote). -/
def ssGo : Str → Str → Str → List Str
  | [], accR, accT =>
    if accT.isEmpty then (if accR.isEmpty then [] else [accR.reverse])
    else [accR.reverse ++ accT.reverse]
  | c :: cs, accR, accT =>
    if accT.isEmpty then
      if isTerm c then (if accR.isEmpty then ssGo cs [] [] else ssGo cs accR [c])
      else ssGo cs (c :: accR) []
    else
      if isTerm c then ssGo cs accR (c :: accT)
      else (accR.reverse ++ accT.reverse) :: ssGo cs [c] []

/-- `chunk.text.match(/[^.!?]+[.!?]+|[^.!?]+$/g) || [chunk.text]`. -/
def sentencesOf (s : Str) : List Str :=
  match ssGo s [] [] with
  | [] => [s]
  | l => l

/-- `const MAX_CHARS = 1500`. -/
def MAX_CHARS : Nat := 1500

/-- Part_000's greedy packing loop: the budget test concatenates `temp` and
the sentence directly, but on success the sentence is joined with an extra
space (`temp += temp ? ' ' + sentence : sentence`); pushes are untrimmed and
the mid-loop push has no emptiness guard. -/
def packGo (sp : Str) : List Str → Str → List Block
  | [], temp => if temp.isEmpty then [] else [⟨sp, temp⟩]
  | s :: rest, temp =>
    if MAX_CHARS < (temp ++ s).length then ⟨sp, temp⟩ :: packGo sp rest s
    else packGo sp rest (if temp.isEmpty then s else temp ++ ' ' :: s)

/-- Second pass: split any chunk longer than `MAX_CHARS` by sentences. -/
def splitChunk (c : Block) : List Block :=
  if MAX_CHARS < c.text.length then packGo c.speaker (sentencesOf c.text) []
  else [c]

/-- `parseDialogueIntoChunks` from src/unnamed/part_000 (no narrator
fallback in this implementation). -/
def parseDialogueIntoChunks (text : Str) : List Block :=
  (parseLines (splitLines text) ("Narrator".toList) []).flatMap splitChunk

/-- Split after the LAST `)` or `]` of the string, if any (the greedy
`[^)\]]*` of the part_000 cleaning regex backtracks to the last closer). -/
def afterLastCloser : Str → Option Str
  | [] => none
  | c :: cs =>
    match afterLastCloser cs with
    | some r => some r
    | none => if c = ')' || c = ']' then some cs else none

/-- One attempted match of `/^\s*[\(\[][^)\]]*[\)\]]\s*/` at a line-start
position: leading whitespace (newlines included), an opening bracket, anything
up to the last closer in the remaining input, trailing whitespace. Returns the
remainder and whether the last consumed character was a newline (which is what
makes the next position a `^` position under the `m` flag). -/
def tryMatch (s : Str) : Option (Str × Bool) :=
  match s.dropWhile isWs with
  | c :: r2 =>
    if c = '(' || c = '[' then
      match afterLastCloser r2 with
      | some r3 =>
        let ws2 := r3.takeWhile isWs
        some (r3.drop ws2.length,
              match ws2.reverse with
              | c2 :: _ => c2 = '\n'
              | [] => false)
      | none => none
    else none
  | [] => none

/-- Global multiline replacement loop for `cleanTextForSpeech`: at every
line-start position try the stage-direction match and drop it; otherwise copy
one character. Structured with fuel (one unit per step; every step consumes at
least one input character, so `length + 1` units suffice). -/
def cleanGo : Nat → Str → Bool → Str
  | 0, s, _ => s
  | fuel + 1, s, atLS =>
    match atLS, tryMatch s with
    | true, some (rem, nl) => cleanGo fuel rem nl
    | _, _ =>
      match s with
      | [] => []
      | c :: cs => c :: cleanGo fuel cs (c = '\n')

/-- `cleanTextForSpeech` from src/unnamed/part_000:
`text.replace(/^\s*[\(\[][^)\]]*[\)\]]\s*/gm, "")`. -/
def cleanTextForSpeech (s : Str) : Str := cleanGo (s.length + 1) s true

/-- First word of a name: `name.split(' ')[0]`. -/
def firstWord (s : Str) : Str := s.takeWhile (· ≠ ' ')

/-- Part_000's voice selection: default `Aoede`; the first config entry whose
lowercased first name-word is contained in the lowercased block speaker wins. -/
def resolveVoice (speaker : Str) (cfg : Option SpeakerMap) : Str :=
  match cfg with
  | none => "Aoede".toList
  | some m =>
    match m.find? (fun e => includes (lower speaker) (firstWord (lower e.1))) with
    | some e => e.2
    | none => "Aoede".toList

/-- The `onError` message for a failing block:
`Error generating audio for block N` where `N = processedBlocks + 1`. -/
def errMsg (k : Nat) : Str := "Error generating audio for block ".toList ++ (Nat.repr k).toList

/-- The per-block loop of part_000's `generateSpeech`. `synth i` models the
single synthesis response for block `i`: a thrown error, or `none` (response
with no inline audio data), or the decoded bytes. The whole block body is
wrapped in a try/catch: a thrown error reports `onError` and the loop
continues. `proc` is `processedBlocks`, incremented only after a successful
response. -/
def p0Loop (synth : Nat → Except Str (Option (List Nat))) (cfg : Option SpeakerMap)
    (useSink : Bool) (n : Nat) : List Block → Nat → Nat → RunResult
  | [], _, _ => ⟨[], [], [], 0, none⟩
  | b :: bs, i, proc =>
    let cleaned := cleanTextForSpeech b.text
    if (trim cleaned).isEmpty then p0Loop synth cfg useSink n bs (i + 1) proc
    else
      let voice := resolveVoice b.speaker cfg
      match synth i with
      | .error _ =>
        let rest := p0Loop synth cfg useSink n bs (i + 1) proc
        ⟨Ev.error (errMsg (proc + 1)) :: rest.events, rest.sinkOps,
         (cleaned, voice) :: rest.reqs, rest.total, none⟩
      | .ok audio =>
        let rest := p0Loop synth cfg useSink n bs (i + 1) (proc + 1)
        let dataEvs : List Ev :=
          match audio with
          | some bytes => if useSink then [] else [.chunk bytes]
          | none => []
        let dataOps : List SinkOp :=
          match audio with
          | some bytes => if useSink then [.write bytes] else []
          | none => []
        ⟨dataEvs ++ Ev.progress (jsRound100 (proc + 1) n) :: rest.events,
         dataOps ++ rest.sinkOps,
         (cleaned, voice) :: rest.reqs,
         (match audio with | some bytes => bytes.length | none => 0) + rest.total,
         none⟩

/-- `generateSpeech` from src/unnamed/part_000: no header is ever written, the
sink (if any) is closed after the loop, and `onComplete` fires at the end of
every run (per-block errors are swallowed by the per-block catch). -/
def generateSpeech (synth : Nat → Except Str (Option (List Nat))) (text : Str)
    (cfg : Option SpeakerMap) (useSink : Bool) : RunResult :=
  let blocks := parseDialogueIntoChunks text
  let out := p0Loop synth cfg useSink blocks.length blocks 0 0
  ⟨out.events ++ [.complete], out.sinkOps ++ (if useSink then [.close] else []),
   out.reqs, out.total, none⟩

end FBot.P0

namespace FBot

/-! ## Observation helpers used by the claim statements -/

/-- The values passed to `onProgress`, in order. -/
def progressVals (evs : List Ev) : List Nat :=
  evs.filterMap (fun e => match e with | .progress v => some v | _ => none)

/-- The byte arrays passed to `onChunk`, in order. -/
def chunkPayloads (evs : List Ev) : List (List Nat) :=
  evs.filterMap (fun e => match e with | .chunk bs => some bs | _ => none)

/-- The byte arrays written to the sink, in order. -/
def writePayloads (ops : List SinkOp) : List (List Nat) :=
  ops.filterMap (fun o => match o with | .write bs => some bs | _ => none)

end FBot

namespace FBot.GS

/-- A block whose cleaned text is non-blank, i.e. one the geminiService loop
does not skip. -/
def nonBlank (b : Block) : Bool := !(trim (cleanText b.text)).isEmpty

end FBot.GS

namespace FBot.P0

/-- A block whose cleaned text is non-blank, i.e. one the part_000 loop does
not skip. -/
def nonBlank (b : Block) : Bool := !(trim (cleanTextForSpeech b.text)).isEmpty

end FBot.P0

namespace FBot

/-- A string that is (the trim of) a single sentence-like unit of the
geminiService sentence regex: a run of non-terminator characters, then a run
of `.`/`!`/`?` terminators, then at most one quote — with nothing after.
Splitting such a string again yields at most this one unit. -/
def isTrimmedUnit (s : Str) : Bool :=
  match (s.dropWhile (fun c => !isTerm c)).dropWhile isTerm with
  | [] => true
  | [c] => isQuote c
  | _ => false

end FBot

namespace FBot.P0

/-- A string that is a single sentence-like unit of the part_000 sentence
regex (no quote alternative): a run of non-terminators then a run of
terminators, with nothing after. -/
def unitLike (s : Str) : Bool :=
  ((s.dropWhile (fun c => !isTerm c)).dropWhile isTerm).isEmpty

end FBot.P0

namespace FBot.GS

/-- Definition following the spec's words (§4.2, §8): the speaker-attributed
content of one line — the text after the speaker label for a speaker line,
the whole line otherwise. -/
def specLineContent (l : Str) : Str :=
  match speakerMatch l with
  | some (_, rest) => rest
  | none => l

/-- Definition following the spec's words: the concatenated speaker-attributed
content of the whole input, in source order. -/
def specAttributedContent (text : Str) : Str :=
  ((splitLines text).map specLineContent).flatten

/-- The buffers the per-line loop hands to `pushBuffer`, in order (the flush
on each speaker line plus the final flush). Mirrors `parseLines`. -/
def flushedBuffers : List Str → Str → List Str
  | [], buf => [buf]
  | l :: ls, buf =>
    match speakerMatch l with
    | some (_, rest) => buf :: flushedBuffers ls (rest ++ [' '])
    | none =>
      if (trim l).isEmpty then flushedBuffers ls buf
      else flushedBuffers ls (buf ++ trim l ++ ['\n'])

end FBot.GS

namespace FBot

/-! ## Basic helper lemmas -/

theorem dropWhile_eq_self_of_all {p : Char → Bool} {s : Str}
    (h : ∀ c ∈ s, p c = false) : s.dropWhile p = s := by
  cases s with
  | nil => rfl
  | cons c cs =>
    simp [List.dropWhile, h c (by simp)]

theorem trim_eq_self_of_all {s : Str} (h : ∀ c ∈ s, isWs c = false) : trim s = s := by
  unfold trim
  rw [dropWhile_eq_self_of_all h, dropWhile_eq_self_of_all (by simpa using h), List.reverse_reverse]

theorem trim_nil : trim [] = [] := rfl

theorem trim_cons_ws {c : Char} {s : Str} (h : isWs c = true) : trim (c :: s) = trim s := by
  unfold trim
  simp [List.dropWhile, h]

theorem dropWhile_append_of_ne_nil {p : Char → Bool} {xs ys : Str}
    (h : xs.dropWhile p ≠ []) : (xs ++ ys).dropWhile p = xs.dropWhile p ++ ys := by
  rw [List.dropWhile_append]
  simp [List.isEmpty_iff, h]

theorem dropWhile_append_of_nil {p : Char → Bool} {xs ys : Str}
    (h : xs.dropWhile p = []) : (xs ++ ys).dropWhile p = ys.dropWhile p := by
  rw [List.dropWhile_append]
  simp [List.isEmpty_iff, h]

theorem trim_append_ws {c : Char} {s : Str} (h : isWs c = true) : trim (s ++ [c]) = trim s := by
  unfold trim
  by_cases hd : s.dropWhile isWs = []
  · rw [dropWhile_append_of_nil hd, hd]
    simp [List.dropWhile, h]
  · rw [dropWhile_append_of_ne_nil hd]
    simp only [List.reverse_append, List.reverse_cons, List.reverse_nil, List.nil_append,
      List.singleton_append, List.dropWhile]
    simp [h]

theorem stripWs_append (s t : Str) : stripWs (s ++ t) = stripWs s ++ stripWs t :=
  List.filter_append s t

theorem stripWs_dropWhile (s : Str) : stripWs (s.dropWhile isWs) = stripWs s := by
  induction s with
  | nil => rfl
  | cons c cs ih =>
    by_cases h : isWs c
    · simpa [List.dropWhile, h, stripWs, List.filter] using ih
    · simp [List.dropWhile, h]

theorem stripWs_reverse (s : Str) : stripWs s.reverse = (stripWs s).reverse :=
  List.filter_reverse _ s

theorem stripWs_trim (s : Str) : stripWs (trim s) = stripWs s := by
  unfold trim
  rw [stripWs_reverse, stripWs_dropWhile, stripWs_reverse, List.reverse_reverse,
    stripWs_dropWhile]

theorem stripWs_of_trim_nil {s : Str} (h : trim s = []) : stripWs s = [] := by
  have := stripWs_trim s
  rw [h] at this
  exact this.symm

theorem length_trim_le (s : Str) : (trim s).length ≤ s.length := by
  unfold trim
  calc ((s.dropWhile isWs).reverse.dropWhile isWs).reverse.length
      = ((s.dropWhile isWs).reverse.dropWhile isWs).length := List.length_reverse _
    _ ≤ (s.dropWhile isWs).reverse.length := (List.dropWhile_sublist _).length_le
    _ = (s.dropWhile isWs).length := List.length_reverse _
    _ ≤ s.length := (List.dropWhile_sublist _).length_le

theorem jsRound100_mono {a b : Nat} (n : Nat) (h : a ≤ b) :
    jsRound100 a n ≤ jsRound100 b n := by
  unfold jsRound100
  exact Nat.div_le_div_right (by omega)

theorem jsRound100_self {n : Nat} (h : 1 ≤ n) : jsRound100 n n = 100 := by
  unfold jsRound100
  have h2 : 0 < 2 * n := by omega
  have : 200 * n + n = n + 2 * n * 100 := by ring
  rw [this, Nat.add_mul_div_left _ _ h2, Nat.div_eq_of_lt (by omega)]

theorem splitLines_no_newline {s : Str} (h : ∀ c ∈ s, c ≠ '\n') : splitLines s = [s] := by
  induction s with
  | nil => rfl
  | cons c cs ih =>
    have hc : c ≠ '\n' := h c (by simp)
    have ihh := ih (fun c hc2 => h c (by simp [hc2]))
    simp [splitLines, hc, ihh]

theorem getLast?_append_of_getLast? {α : Type} {l₂ : List α} {x : α} (l₁ : List α)
    (h : l₂.getLast? = some x) : (l₁ ++ l₂).getLast? = some x := by
  rw [List.getLast?_append, h]
  rfl



/-! ## Evaluation lemmas for long replicate-built inputs

The kernel cannot brute-force reduce the segmenters on inputs longer than the
1500-character budget, so the claims about over-budget inputs are settled by
symbolic evaluation over `List.replicate`. -/

theorem gs_ssGo_all_nonterm {s : Str} (accR : Str)
    (hs : ∀ c ∈ s, isTerm c = false) (hne : accR ≠ [] ∨ s ≠ []) :
    GS.ssGo s accR [] = [accR.reverse ++ s] := by
  induction s generalizing accR with
  | nil =>
    rcases hne with h | h
    · simp [GS.ssGo, List.isEmpty_iff, h]
    · simp at h
  | cons c cs ih =>
    have hc : isTerm c = false := hs c (by simp)
    have := ih (c :: accR) (fun d hd => hs d (by simp [hd])) (Or.inl (by simp))
    simp [GS.ssGo, hc, this]

theorem gs_sentencesOf_all_nonterm {s : Str}
    (hs : ∀ c ∈ s, isTerm c = false) (hne : s ≠ []) :
    GS.sentencesOf s = [s] := by
  unfold GS.sentencesOf GS.splitSentences
  rw [gs_ssGo_all_nonterm [] hs (Or.inr hne)]
  simp

theorem replicate_a_all_nonterm (n : Nat) :
    ∀ c ∈ List.replicate n 'a' ++ ['\n'], isTerm c = false := by
  intro c hc
  rcases List.mem_append.1 hc with h | h
  · rw [List.eq_of_mem_replicate h]; rfl
  · simp at h
    rw [h]; rfl

theorem gs_trim_replicate_a (n : Nat) : trim (List.replicate n 'a') = List.replicate n 'a' :=
  trim_eq_self_of_all (fun c hc => by rw [List.eq_of_mem_replicate hc]; rfl)

theorem gs_speakerMatch_replicate_a {n : Nat} (hn : 0 < n) :
    GS.speakerMatch (List.replicate n 'a') = none := by
  have h1 : List.takeWhile (fun x => decide (x = '*')) (List.replicate n 'a') = [] := by
    rw [List.takeWhile_replicate]
    simp
  have h2 : List.takeWhile GS.isNameChar (List.replicate n 'a') = List.replicate n 'a' := by
    rw [List.takeWhile_replicate]
    simp [GS.isNameChar, isAlpha]
  have h4 : (List.filter GS.isNameChar (List.replicate n 'a')).length = n := by
    rw [List.filter_eq_self.mpr]
    · exact List.length_replicate n 'a'
    · intro c hc
      rw [List.eq_of_mem_replicate hc]
      decide
  unfold GS.speakerMatch
  simp only [h1, List.length_nil, List.drop_zero, h2, List.length_replicate,
    List.drop_replicate, Nat.sub_self, List.replicate_zero, List.takeWhile_nil]
  have h3 : (List.replicate n 'a').isEmpty = false := by
    simp [List.isEmpty_iff, List.replicate_eq_nil_iff]
    omega
  simp [h3, h4]

theorem gs_parse_replicate_a {n : Nat} (hn : 1500 < n) :
    GS.parseDialogueIntoChunks (List.replicate n 'a') =
      [⟨GS.narrator, []⟩, ⟨GS.narrator, List.replicate n 'a'⟩] := by
  have hn0 : 0 < n := by omega
  have hrepne : List.replicate n 'a' ≠ [] := by
    simp [List.replicate_eq_nil_iff]
    omega
  have hlines : splitLines (List.replicate n 'a') = [List.replicate n 'a'] :=
    splitLines_no_newline (fun c hc => by rw [List.eq_of_mem_replicate hc]; decide)
  have htrim : trim (List.replicate n 'a') = List.replicate n 'a' := gs_trim_replicate_a n
  have htrimnl : trim (List.replicate n 'a' ++ ['\n']) = List.replicate n 'a' := by
    rw [trim_append_ws (by decide), htrim]
  unfold GS.parseDialogueIntoChunks
  rw [hlines]
  unfold GS.parseLines
  rw [gs_speakerMatch_replicate_a hn0]
  simp only [htrim, List.isEmpty_iff, hrepne, if_neg (by exact hrepne), List.nil_append]
  have hlen : GS.MAX_CHAR_LIMIT < (List.replicate n 'a' ++ ['\n']).length := by
    simp [GS.MAX_CHAR_LIMIT]
    omega
  have hpush : GS.pushBuffer GS.narrator (List.replicate n 'a' ++ ['\n']) =
      [⟨GS.narrator, []⟩, ⟨GS.narrator, List.replicate n 'a'⟩] := by
    unfold GS.pushBuffer
    rw [htrimnl]
    rw [if_neg (by simp [List.isEmpty_iff, List.replicate_eq_nil_iff]; omega)]
    rw [if_pos hlen]
    rw [gs_sentencesOf_all_nonterm (replicate_a_all_nonterm n) (by simp)]
    unfold GS.packGo
    rw [if_pos (by simpa using hlen)]
    unfold GS.packGo
    rw [htrimnl, trim_nil]
    simp [List.isEmpty_iff, List.replicate_eq_nil_iff]
    omega
  have hinner : GS.parseLines [] GS.narrator (List.replicate n 'a' ++ ['\n']) =
      [⟨GS.narrator, []⟩, ⟨GS.narrator, List.replicate n 'a'⟩] := by
    unfold GS.parseLines
    exact hpush
  simp only [if_false, hinner]
  simp [List.isEmpty_iff]


/-! ## Equation lemmas for the geminiService run loop -/

theorem gs_gsLoop_nil (synth : Nat → Except Str (List (List Nat))) (cfg : Option SpeakerMap)
    (u : Bool) (n i : Nat) : GS.gsLoop synth cfg u n [] i = ⟨[], [], [], 0, none⟩ := rfl

theorem gs_gsLoop_cons_blank {b : Block} (synth : Nat → Except Str (List (List Nat)))
    (cfg : Option SpeakerMap) (u : Bool) (n : Nat) (bs : List Block) (i : Nat)
    (hb : GS.nonBlank b = false) :
    GS.gsLoop synth cfg u n (b :: bs) i = GS.gsLoop synth cfg u n bs (i + 1) := by
  have hb2 : (trim (GS.cleanText b.text)).isEmpty = true := by
    simp [GS.nonBlank] at hb
    simp [List.isEmpty_iff, hb]
  conv_lhs => rw [GS.gsLoop.eq_def]
  dsimp only
  rw [if_pos hb2]

theorem gs_gsLoop_cons_err {b : Block} {e : Str}
    {synth : Nat → Except Str (List (List Nat))} (cfg : Option SpeakerMap)
    (u : Bool) (n : Nat) (bs : List Block) {i : Nat}
    (hb : GS.nonBlank b = true) (hs : synth i = .error e) :
    GS.gsLoop synth cfg u n (b :: bs) i =
      ⟨[], [], [(GS.cleanText b.text, GS.resolveVoice b.speaker cfg)], 0, some e⟩ := by
  have hb2 : ¬(trim (GS.cleanText b.text)).isEmpty = true := by
    simp [GS.nonBlank] at hb
    simp [List.isEmpty_iff, hb]
  conv_lhs => rw [GS.gsLoop.eq_def]
  dsimp only
  rw [if_neg hb2, hs]

theorem gs_gsLoop_cons_ok {b : Block} {chunks : List (List Nat)}
    {synth : Nat → Except Str (List (List Nat))} (cfg : Option SpeakerMap)
    (u : Bool) (n : Nat) (bs : List Block) {i : Nat}
    (hb : GS.nonBlank b = true) (hs : synth i = .ok chunks) :
    GS.gsLoop synth cfg u n (b :: bs) i =
      ⟨(if u then [] else chunks.map Ev.chunk) ++
         Ev.progress (jsRound100 (i + 1) n) :: (GS.gsLoop synth cfg u n bs (i + 1)).events,
       (if u then chunks.map SinkOp.write else []) ++ (GS.gsLoop synth cfg u n bs (i + 1)).sinkOps,
       (GS.cleanText b.text, GS.resolveVoice b.speaker cfg) ::
         (GS.gsLoop synth cfg u n bs (i + 1)).reqs,
       (chunks.map List.length).sum + (GS.gsLoop synth cfg u n bs (i + 1)).total,
       (GS.gsLoop synth cfg u n bs (i + 1)).fatal⟩ := by
  have hb2 : ¬(trim (GS.cleanText b.text)).isEmpty = true := by
    simp [GS.nonBlank] at hb
    simp [List.isEmpty_iff, hb]
  conv_lhs => rw [GS.gsLoop.eq_def]
  dsimp only
  rw [if_neg hb2, hs]

theorem gs_gsLoop_cons_ok_false {b : Block} {chunks : List (List Nat)}
    {synth : Nat → Except Str (List (List Nat))} (cfg : Option SpeakerMap)
    (n : Nat) (bs : List Block) {i : Nat}
    (hb : GS.nonBlank b = true) (hs : synth i = .ok chunks) :
    GS.gsLoop synth cfg false n (b :: bs) i =
      ⟨chunks.map Ev.chunk ++
         Ev.progress (jsRound100 (i + 1) n) :: (GS.gsLoop synth cfg false n bs (i + 1)).events,
       (GS.gsLoop synth cfg false n bs (i + 1)).sinkOps,
       (GS.cleanText b.text, GS.resolveVoice b.speaker cfg) ::
         (GS.gsLoop synth cfg false n bs (i + 1)).reqs,
       (chunks.map List.length).sum + (GS.gsLoop synth cfg false n bs (i + 1)).total,
       (GS.gsLoop synth cfg false n bs (i + 1)).fatal⟩ := by
  rw [gs_gsLoop_cons_ok cfg false n bs hb hs]
  simp

theorem gs_gsLoop_cons_ok_true {b : Block} {chunks : List (List Nat)}
    {synth : Nat → Except Str (List (List Nat))} (cfg : Option SpeakerMap)
    (n : Nat) (bs : List Block) {i : Nat}
    (hb : GS.nonBlank b = true) (hs : synth i = .ok chunks) :
    GS.gsLoop synth cfg true n (b :: bs) i =
      ⟨Ev.progress (jsRound100 (i + 1) n) :: (GS.gsLoop synth cfg true n bs (i + 1)).events,
       chunks.map SinkOp.write ++ (GS.gsLoop synth cfg true n bs (i + 1)).sinkOps,
       (GS.cleanText b.text, GS.resolveVoice b.speaker cfg) ::
         (GS.gsLoop synth cfg true n bs (i + 1)).reqs,
       (chunks.map List.length).sum + (GS.gsLoop synth cfg true n bs (i + 1)).total,
       (GS.gsLoop synth cfg true n bs (i + 1)).fatal⟩ := by
  rw [gs_gsLoop_cons_ok cfg true n bs hb hs]
  simp

theorem progressVals_append (l₁ l₂ : List Ev) :
    progressVals (l₁ ++ l₂) = progressVals l₁ ++ progressVals l₂ :=
  List.filterMap_append l₁ l₂ _

theorem progressVals_chunks (l : List (List Nat)) :
    progressVals (l.map Ev.chunk) = [] := by
  induction l with
  | nil => rfl
  | cons x xs ih =>
    simp only [List.map_cons]
    rw [show progressVals (Ev.chunk x :: List.map Ev.chunk xs) =
        progressVals (List.map Ev.chunk xs) from rfl]
    exact ih

theorem progressVals_if_chunks (u : Bool) (l : List (List Nat)) :
    progressVals (if u then [] else l.map Ev.chunk) = [] := by
  cases u
  · simpa using progressVals_chunks l
  · rfl

/-- The progress values of a geminiService run loop are pairwise
non-decreasing, and all bounded below by the value for the next block. -/
theorem gs_progress_mono (synth : Nat → Except Str (List (List Nat)))
    (cfg : Option SpeakerMap) (u : Bool) (n : Nat) :
    ∀ (bs : List Block) (i : Nat),
      List.Pairwise (· ≤ ·) (progressVals (GS.gsLoop synth cfg u n bs i).events) ∧
      (∀ v ∈ progressVals (GS.gsLoop synth cfg u n bs i).events, jsRound100 (i + 1) n ≤ v) := by
  intro bs
  induction bs with
  | nil =>
    intro i
    exact ⟨by simp [gs_gsLoop_nil, progressVals], by simp [gs_gsLoop_nil, progressVals]⟩
  | cons b bs ih =>
    intro i
    by_cases hb : GS.nonBlank b
    · cases hs : synth i with
      | error e =>
        rw [gs_gsLoop_cons_err cfg u n bs hb hs]
        exact ⟨by simp [progressVals], by simp [progressVals]⟩
      | ok chunks =>
        rw [gs_gsLoop_cons_ok cfg u n bs hb hs]
        have hrest := ih (i + 1)
        have hbound : ∀ v ∈ progressVals (GS.gsLoop synth cfg u n bs (i + 1)).events,
            jsRound100 (i + 1) n ≤ v := by
          intro v hv
          exact le_trans (jsRound100_mono n (by omega)) (hrest.2 v hv)
        constructor
        · simp only [progressVals_append, progressVals_if_chunks, List.nil_append]
          rw [show progressVals (Ev.progress (jsRound100 (i + 1) n) ::
                (GS.gsLoop synth cfg u n bs (i + 1)).events) =
              jsRound100 (i + 1) n :: progressVals (GS.gsLoop synth cfg u n bs (i + 1)).events
            from rfl]
          exact List.pairwise_cons.2 ⟨hbound, hrest.1⟩
        · intro v hv
          simp only [progressVals_append, progressVals_if_chunks, List.nil_append] at hv
          rw [show progressVals (Ev.progress (jsRound100 (i + 1) n) ::
                (GS.gsLoop synth cfg u n bs (i + 1)).events) =
              jsRound100 (i + 1) n :: progressVals (GS.gsLoop synth cfg u n bs (i + 1)).events
            from rfl] at hv
          rcases List.mem_cons.1 hv with hv | hv
          · exact le_of_eq hv.symm
          · exact hbound v hv
    · rw [gs_gsLoop_cons_blank synth cfg u n bs i (by simpa using hb)]
      refine ⟨(ih (i + 1)).1, fun v hv => ?_⟩
      exact le_trans (jsRound100_mono n (by omega)) ((ih (i + 1)).2 v hv)

/-- When no fatal error occurs, the loop fires `onProgress` exactly once per
non-blank block. -/
theorem gs_progress_count (synth : Nat → Except Str (List (List Nat)))
    (cfg : Option SpeakerMap) (u : Bool) (n : Nat) :
    ∀ (bs : List Block) (i : Nat), (GS.gsLoop synth cfg u n bs i).fatal = none →
      (progressVals (GS.gsLoop synth cfg u n bs i).events).length =
        (bs.filter GS.nonBlank).length := by
  intro bs
  induction bs with
  | nil => intro i _; simp [gs_gsLoop_nil, progressVals]
  | cons b bs ih =>
    intro i hf
    by_cases hb : GS.nonBlank b
    · cases hs : synth i with
      | error e =>
        rw [gs_gsLoop_cons_err cfg u n bs hb hs] at hf
        simp at hf
      | ok chunks =>
        rw [gs_gsLoop_cons_ok cfg u n bs hb hs] at hf ⊢
        simp only [progressVals_append, progressVals_if_chunks, List.nil_append]
        rw [show progressVals (Ev.progress (jsRound100 (i + 1) n) ::
              (GS.gsLoop synth cfg u n bs (i + 1)).events) =
            jsRound100 (i + 1) n :: progressVals (GS.gsLoop synth cfg u n bs (i + 1)).events
          from rfl]
        simp only [List.length_cons, List.filter_cons, hb, if_true]
        rw [ih (i + 1) hf]
    · rw [gs_gsLoop_cons_blank synth cfg u n bs i (by simpa using hb)] at hf ⊢
      rw [ih (i + 1) hf]
      simp [List.filter_cons, hb]

/-- When no fatal error occurs and the last block is non-blank, the last
progress value is the one for the final index. -/
theorem gs_progress_last (synth : Nat → Except Str (List (List Nat)))
    (cfg : Option SpeakerMap) (u : Bool) (n : Nat) :
    ∀ (bs : List Block) (i : Nat) (b : Block), (GS.gsLoop synth cfg u n bs i).fatal = none →
      bs.getLast? = some b → GS.nonBlank b = true →
      (progressVals (GS.gsLoop synth cfg u n bs i).events).getLast? =
        some (jsRound100 (i + bs.length) n) := by
  intro bs
  induction bs with
  | nil => intro i b _ hl; simp at hl
  | cons b0 bs ih =>
    intro i b hf hl hb
    cases bs with
    | nil =>
      simp at hl
      subst hl
      cases hs : synth i with
      | error e =>
        rw [gs_gsLoop_cons_err cfg u n [] hb hs] at hf
        simp at hf
      | ok chunks =>
        rw [gs_gsLoop_cons_ok cfg u n [] hb hs]
        simp only [progressVals_append, progressVals_if_chunks, List.nil_append]
        simp [gs_gsLoop_nil, progressVals, List.length_cons]
    | cons b1 bs1 =>
      have hl2 : (b1 :: bs1).getLast? = some b := by
        rw [← List.getLast?_cons_cons]
        exact hl
      by_cases hb0 : GS.nonBlank b0
      · cases hs : synth i with
        | error e =>
          rw [gs_gsLoop_cons_err cfg u n (b1 :: bs1) hb0 hs] at hf
          simp at hf
        | ok chunks =>
          rw [gs_gsLoop_cons_ok cfg u n (b1 :: bs1) hb0 hs] at hf ⊢
          simp only [progressVals_append, progressVals_if_chunks, List.nil_append]
          have hrec := ih (i + 1) b hf hl2 hb
          rw [show progressVals (Ev.progress (jsRound100 (i + 1) n) ::
                (GS.gsLoop synth cfg u n (b1 :: bs1) (i + 1)).events) =
              jsRound100 (i + 1) n ::
                progressVals (GS.gsLoop synth cfg u n (b1 :: bs1) (i + 1)).events
            from rfl]
          have hne : progressVals (GS.gsLoop synth cfg u n (b1 :: bs1) (i + 1)).events ≠ [] := by
            intro hcon
            rw [hcon] at hrec
            simp at hrec
          have hstep := getLast?_append_of_getLast? [jsRound100 (i + 1) n] hrec
          rw [List.singleton_append] at hstep
          rw [hstep]
          congr 2
          simp only [List.length_cons]
          omega
      · rw [gs_gsLoop_cons_blank synth cfg u n (b1 :: bs1) i (by simpa using hb0)] at hf ⊢
        have hrec := ih (i + 1) b hf hl2 hb
        rw [hrec]
        congr 2
        simp [List.length_cons]
        omega

/-- The progress values of a whole run equal those of its loop: the header
writes, warning, completion and error events contribute none. -/
theorem gs_run_progressVals (synth : Nat → Except Str (List (List Nat))) (text : Str)
    (cfg : Option SpeakerMap) (u ff : Bool) :
    progressVals (GS.generateSpeech synth text cfg u ff).events =
      progressVals (GS.gsLoop synth cfg u (GS.parseDialogueIntoChunks text).length
        (GS.parseDialogueIntoChunks text) 0).events := by
  unfold GS.generateSpeech
  cases hout : (GS.gsLoop synth cfg u (GS.parseDialogueIntoChunks text).length
      (GS.parseDialogueIntoChunks text) 0).fatal with
  | some e => simp [hout, progressVals_append, progressVals]
  | none =>
    cases u <;> cases ff <;>
      simp [hout, progressVals_append, progressVals]

/-- The fatal field of a whole run equals that of its loop. -/
theorem gs_run_fatal (synth : Nat → Except Str (List (List Nat))) (text : Str)
    (cfg : Option SpeakerMap) (u ff : Bool) :
    (GS.generateSpeech synth text cfg u ff).fatal =
      (GS.gsLoop synth cfg u (GS.parseDialogueIntoChunks text).length
        (GS.parseDialogueIntoChunks text) 0).fatal := by
  unfold GS.generateSpeech
  cases hout : (GS.gsLoop synth cfg u (GS.parseDialogueIntoChunks text).length
      (GS.parseDialogueIntoChunks text) 0).fatal <;> simp [hout]

/-! ## Equation lemmas for the part_000 run loop and the C1 counting lemmas -/

theorem createWavHeader_length (n ch sr bps : Nat) : (createWavHeader n ch sr bps).length = 44 := by
  simp [createWavHeader, le16, le32]

theorem declaredSize_createWavHeader (n : Nat) :
    declaredSize (createWavHeader n 1 24000 16) = n % 4294967296 := by
  simp [declaredSize, createWavHeader, le16, le32]
  omega

theorem declaredSize_placeholder : declaredSize (createWavHeader 0 1 24000 16) = 0 := by decide

theorem chunkPayloads_append (l₁ l₂ : List Ev) :
    chunkPayloads (l₁ ++ l₂) = chunkPayloads l₁ ++ chunkPayloads l₂ :=
  List.filterMap_append l₁ l₂ _

theorem chunkPayloads_map_chunk (l : List (List Nat)) :
    chunkPayloads (l.map Ev.chunk) = l := by
  induction l with
  | nil => rfl
  | cons x xs ih =>
    simp only [List.map_cons]
    rw [show chunkPayloads (Ev.chunk x :: List.map Ev.chunk xs) =
        x :: chunkPayloads (List.map Ev.chunk xs) from rfl]
    rw [ih]

/-- Payload correspondence between a sink run and a no-sink run of the
geminiService loop: the no-sink run performs no sink operations, the sink run
writes exactly the byte arrays that the no-sink run hands to `onChunk`, and
`totalSize` accumulates exactly their lengths in both modes. -/
theorem gs_loop_sink_payloads (synth : Nat → Except Str (List (List Nat)))
    (cfg : Option SpeakerMap) (n : Nat) :
    ∀ (bs : List Block) (i : Nat),
      (GS.gsLoop synth cfg false n bs i).sinkOps = [] ∧
      (GS.gsLoop synth cfg true n bs i).sinkOps =
        (chunkPayloads (GS.gsLoop synth cfg false n bs i).events).map SinkOp.write ∧
      ((chunkPayloads (GS.gsLoop synth cfg false n bs i).events).map List.length).sum =
        (GS.gsLoop synth cfg true n bs i).total ∧
      (GS.gsLoop synth cfg true n bs i).total = (GS.gsLoop synth cfg false n bs i).total ∧
      (GS.gsLoop synth cfg true n bs i).fatal = (GS.gsLoop synth cfg false n bs i).fatal := by
  intro bs
  induction bs with
  | nil =>
    intro i
    refine ⟨rfl, rfl, rfl, rfl, rfl⟩
  | cons b bs ih =>
    intro i
    by_cases hb : GS.nonBlank b
    · cases hs : synth i with
      | error e =>
        rw [gs_gsLoop_cons_err cfg false n bs hb hs, gs_gsLoop_cons_err cfg true n bs hb hs]
        refine ⟨rfl, rfl, rfl, rfl, rfl⟩
      | ok chunks =>
        rw [gs_gsLoop_cons_ok_false cfg n bs hb hs, gs_gsLoop_cons_ok_true cfg n bs hb hs]
        have h := ih (i + 1)
        have hcp : chunkPayloads (chunks.map Ev.chunk ++
              Ev.progress (jsRound100 (i + 1) n) ::
                (GS.gsLoop synth cfg false n bs (i + 1)).events) =
            chunks ++ chunkPayloads (GS.gsLoop synth cfg false n bs (i + 1)).events := by
          rw [chunkPayloads_append, chunkPayloads_map_chunk]
          rfl
        refine ⟨h.1, ?_, ?_, ?_, h.2.2.2.2⟩
        · simp only [hcp]
          rw [List.map_append, h.2.1]
        · simp only [hcp]
          rw [List.map_append, List.sum_append, h.2.2.1]
        · simp only []
          rw [h.2.2.2.1]
    · rw [gs_gsLoop_cons_blank synth cfg false n bs i (by simp at hb; simp [hb]),
        gs_gsLoop_cons_blank synth cfg true n bs i (by simp at hb; simp [hb])]
      exact ih (i + 1)

/-- Replaying a block of appended writes, then the remaining operations. -/
theorem replayGo_writes_then (rest : List SinkOp) :
    ∀ (ws : List (List Nat)) (contents : List Nat),
      replayGo (ws.map SinkOp.write ++ rest) contents contents.length =
        replayGo rest (contents ++ ws.flatten) (contents ++ ws.flatten).length := by
  intro ws
  induction ws with
  | nil => intro contents; simp
  | cons w ws ih =>
    intro contents
    simp only [List.map_cons, List.cons_append]
    rw [show replayGo (SinkOp.write w :: (ws.map SinkOp.write ++ rest)) contents contents.length =
        replayGo (ws.map SinkOp.write ++ rest) (writeAt contents contents.length w)
          (contents.length + w.length) from rfl]
    have hw : writeAt contents contents.length w = contents ++ w := by
      unfold writeAt
      rw [List.take_length]
      rw [List.drop_eq_nil_of_le (by omega)]
      simp
    rw [hw]
    have hl : contents.length + w.length = (contents ++ w).length := by simp
    rw [hl, ih (contents ++ w)]
    simp

/-- Replaying the full successful-run operation list: placeholder header,
payload writes, seek to zero, final header, close. The final contents are the
final header followed by the payload. -/
theorem replaySink_success (h0 h1 : List Nat) (ws : List (List Nat))
    (hh0 : h0.length = 44) (hh1 : h1.length = 44) :
    replaySink (SinkOp.write h0 :: (ws.map SinkOp.write ++
        [SinkOp.seek 0, SinkOp.write h1, SinkOp.close])) = h1 ++ ws.flatten := by
  unfold replaySink
  rw [show replayGo (SinkOp.write h0 :: (ws.map SinkOp.write ++
        [SinkOp.seek 0, SinkOp.write h1, SinkOp.close])) [] 0 =
      replayGo (ws.map SinkOp.write ++ [SinkOp.seek 0, SinkOp.write h1, SinkOp.close])
        (writeAt [] 0 h0) (0 + h0.length) from rfl]
  have hw : writeAt [] 0 h0 = h0 := by
    unfold writeAt
    simp
  rw [hw, show (0 + h0.length) = h0.length from by omega]
  rw [replayGo_writes_then _ ws h0]
  rw [show replayGo [SinkOp.seek 0, SinkOp.write h1, SinkOp.close]
        (h0 ++ ws.flatten) (h0 ++ ws.flatten).length =
      replayGo [SinkOp.close] (writeAt (h0 ++ ws.flatten) 0 h1) (0 + h1.length) from rfl]
  have hw2 : writeAt (h0 ++ ws.flatten) 0 h1 = h1 ++ ws.flatten := by
    unfold writeAt
    rw [List.take_zero, List.nil_append, Nat.zero_add]
    rw [hh1, ← hh0, List.drop_left]
  rw [hw2]
  rfl

/-- Replaying a run whose finalization failed (or aborted): placeholder
header then payload writes (and possibly a close). The placeholder header
stays in place. -/
theorem replaySink_writes_only (h0 : List Nat) (ws : List (List Nat)) (rest : List SinkOp)
    (hrest : rest = [] ∨ rest = [SinkOp.close]) :
    replaySink (SinkOp.write h0 :: (ws.map SinkOp.write ++ rest)) = h0 ++ ws.flatten := by
  unfold replaySink
  rw [show replayGo (SinkOp.write h0 :: (ws.map SinkOp.write ++ rest)) [] 0 =
      replayGo (ws.map SinkOp.write ++ rest) (writeAt [] 0 h0) (0 + h0.length) from rfl]
  have hw : writeAt [] 0 h0 = h0 := by
    unfold writeAt
    simp
  rw [hw, show (0 + h0.length) = h0.length from by omega]
  rw [replayGo_writes_then _ ws h0]
  rcases hrest with hrest | hrest <;> rw [hrest] <;> rfl

/-! ## Run-level sink characterizations -/

theorem gs_run_sinkOps_success {synth : Nat → Except Str (List (List Nat))} {text : Str}
    {cfg : Option SpeakerMap}
    (hfat : (GS.gsLoop synth cfg true (GS.parseDialogueIntoChunks text).length
      (GS.parseDialogueIntoChunks text) 0).fatal = none) :
    (GS.generateSpeech synth text cfg true false).sinkOps =
      SinkOp.write (createWavHeader 0 1 24000 16) ::
        ((GS.gsLoop synth cfg true (GS.parseDialogueIntoChunks text).length
            (GS.parseDialogueIntoChunks text) 0).sinkOps ++
          [SinkOp.seek 0,
           SinkOp.write (createWavHeader
             (GS.gsLoop synth cfg true (GS.parseDialogueIntoChunks text).length
               (GS.parseDialogueIntoChunks text) 0).total 1 24000 16),
           SinkOp.close]) := by
  unfold GS.generateSpeech
  dsimp only
  rw [hfat]
  simp

theorem gs_run_sinkOps_finfail {synth : Nat → Except Str (List (List Nat))} {text : Str}
    {cfg : Option SpeakerMap}
    (hfat : (GS.gsLoop synth cfg true (GS.parseDialogueIntoChunks text).length
      (GS.parseDialogueIntoChunks text) 0).fatal = none) :
    (GS.generateSpeech synth text cfg true true).sinkOps =
      SinkOp.write (createWavHeader 0 1 24000 16) ::
        ((GS.gsLoop synth cfg true (GS.parseDialogueIntoChunks text).length
            (GS.parseDialogueIntoChunks text) 0).sinkOps ++ [SinkOp.close]) := by
  unfold GS.generateSpeech
  dsimp only
  rw [hfat]
  simp

theorem gs_run_sinkOps_fatal {synth : Nat → Except Str (List (List Nat))} {text : Str}
    {cfg : Option SpeakerMap} {e : Str} (ff : Bool)
    (hfat : (GS.gsLoop synth cfg true (GS.parseDialogueIntoChunks text).length
      (GS.parseDialogueIntoChunks text) 0).fatal = some e) :
    (GS.generateSpeech synth text cfg true ff).sinkOps =
      SinkOp.write (createWavHeader 0 1 24000 16) ::
        ((GS.gsLoop synth cfg true (GS.parseDialogueIntoChunks text).length
            (GS.parseDialogueIntoChunks text) 0).sinkOps ++ []) := by
  unfold GS.generateSpeech
  dsimp only
  rw [hfat]
  simp

theorem gs_run_total (synth : Nat → Except Str (List (List Nat))) (text : Str)
    (cfg : Option SpeakerMap) (u ff : Bool) :
    (GS.generateSpeech synth text cfg u ff).total =
      (GS.gsLoop synth cfg u (GS.parseDialogueIntoChunks text).length
        (GS.parseDialogueIntoChunks text) 0).total := by
  unfold GS.generateSpeech
  dsimp only
  cases hout : (GS.gsLoop synth cfg u (GS.parseDialogueIntoChunks text).length
      (GS.parseDialogueIntoChunks text) 0).fatal <;> simp [hout]

theorem gs_run_chunkPayloads (synth : Nat → Except Str (List (List Nat))) (text : Str)
    (cfg : Option SpeakerMap) (u ff : Bool) :
    chunkPayloads (GS.generateSpeech synth text cfg u ff).events =
      chunkPayloads (GS.gsLoop synth cfg u (GS.parseDialogueIntoChunks text).length
        (GS.parseDialogueIntoChunks text) 0).events := by
  unfold GS.generateSpeech
  dsimp only
  cases hout : (GS.gsLoop synth cfg u (GS.parseDialogueIntoChunks text).length
      (GS.parseDialogueIntoChunks text) 0).fatal with
  | some e => simp [chunkPayloads_append, chunkPayloads]
  | none => cases u <;> cases ff <;> simp [chunkPayloads_append, chunkPayloads]

/-! ## Claim theorems -/

/-- Claim C10 (confirmed): a run without a sink performs no sink operations
and every `onChunk` payload is decoded synthesis audio: concatenated in
order, the `onChunk` bytes equal the sink-mode file contents minus its
44-byte header (for the same oracle), and their total length is exactly the
accumulated `totalSize` — so no header bytes are ever delivered through
`onChunk`. -/
theorem c10_chunks_are_payload_only
    (synth : Nat → Except Str (List (List Nat))) (text : Str)
    (cfg : Option SpeakerMap) (ffN ffS : Bool) :
    (GS.generateSpeech synth text cfg false ffN).sinkOps = [] ∧
    (chunkPayloads (GS.generateSpeech synth text cfg false ffN).events).flatten =
      (replaySink (GS.generateSpeech synth text cfg true ffS).sinkOps).drop 44 ∧
    (chunkPayloads (GS.generateSpeech synth text cfg false ffN).events).flatten.length =
      (GS.generateSpeech synth text cfg false ffN).total := by
  have hpl := gs_loop_sink_payloads synth cfg (GS.parseDialogueIntoChunks text).length
    (GS.parseDialogueIntoChunks text) 0
  refine ⟨?_, ?_, ?_⟩
  · unfold GS.generateSpeech
    dsimp only
    cases hout : (GS.gsLoop synth cfg false (GS.parseDialogueIntoChunks text).length
        (GS.parseDialogueIntoChunks text) 0).fatal <;> simp [hout, hpl.1]
  · rw [gs_run_chunkPayloads]
    cases hfat : (GS.gsLoop synth cfg true (GS.parseDialogueIntoChunks text).length
        (GS.parseDialogueIntoChunks text) 0).fatal with
    | some e =>
      rw [gs_run_sinkOps_fatal ffS hfat, hpl.2.1]
      rw [replaySink_writes_only _ _ _ (Or.inl rfl)]
      rw [show (44 : Nat) = (createWavHeader 0 1 24000 16).length from
        (createWavHeader_length 0 1 24000 16).symm]
      rw [List.drop_left]
    | none =>
      cases ffS with
      | false =>
        rw [gs_run_sinkOps_success hfat, hpl.2.1]
        rw [replaySink_success _ _ _ (createWavHeader_length 0 1 24000 16)
          (createWavHeader_length _ 1 24000 16)]
        rw [show (44 : Nat) = (createWavHeader
            (GS.gsLoop synth cfg true (GS.parseDialogueIntoChunks text).length
              (GS.parseDialogueIntoChunks text) 0).total 1 24000 16).length from
          (createWavHeader_length _ 1 24000 16).symm]
        rw [List.drop_left]
      | true =>
        rw [gs_run_sinkOps_finfail hfat, hpl.2.1]
        rw [replaySink_writes_only _ _ _ (Or.inr rfl)]
        rw [show (44 : Nat) = (createWavHeader 0 1 24000 16).length from
          (createWavHeader_length 0 1 24000 16).symm]
        rw [List.drop_left]
  · rw [gs_run_chunkPayloads, gs_run_total]
    rw [List.length_flatten, hpl.2.2.1, hpl.2.2.2.1]

/-- Claim C7 (confirmed): on a successful sink run the header is written
exactly twice — a size-zero placeholder as the very first sink operation, and
the final header right after the single seek back to offset zero — and the
final header's declared payload-size field holds exactly the number of audio
payload bytes written after the header (as a 32-bit field: exactly `totalSize`
whenever it fits in 32 bits, `totalSize mod 2^32` in general). -/
theorem c7_header_placeholder_and_final_size
    (synth : Nat → Except Str (List (List Nat))) (text : Str) (cfg : Option SpeakerMap)
    (h : (GS.generateSpeech synth text cfg true false).fatal = none) :
    ∃ ws : List (List Nat),
      (GS.generateSpeech synth text cfg true false).sinkOps =
        SinkOp.write (createWavHeader 0 1 24000 16) :: (ws.map SinkOp.write ++
          [SinkOp.seek 0,
           SinkOp.write (createWavHeader
             (GS.generateSpeech synth text cfg true false).total 1 24000 16),
           SinkOp.close]) ∧
      replaySink (GS.generateSpeech synth text cfg true false).sinkOps =
        createWavHeader (GS.generateSpeech synth text cfg true false).total 1 24000 16 ++
          ws.flatten ∧
      ws.flatten.length = (GS.generateSpeech synth text cfg true false).total ∧
      declaredSize (createWavHeader 0 1 24000 16) = 0 ∧
      declaredSize (createWavHeader
          (GS.generateSpeech synth text cfg true false).total 1 24000 16) =
        (GS.generateSpeech synth text cfg true false).total % 4294967296 ∧
      ((GS.generateSpeech synth text cfg true false).total < 4294967296 →
        declaredSize (createWavHeader
            (GS.generateSpeech synth text cfg true false).total 1 24000 16) =
          (GS.generateSpeech synth text cfg true false).total) := by
  have hfat : (GS.gsLoop synth cfg true (GS.parseDialogueIntoChunks text).length
      (GS.parseDialogueIntoChunks text) 0).fatal = none := by
    rw [← gs_run_fatal synth text cfg true false]
    exact h
  have hpl := gs_loop_sink_payloads synth cfg (GS.parseDialogueIntoChunks text).length
    (GS.parseDialogueIntoChunks text) 0
  refine ⟨chunkPayloads (GS.gsLoop synth cfg false (GS.parseDialogueIntoChunks text).length
    (GS.parseDialogueIntoChunks text) 0).events, ?_, ?_, ?_, declaredSize_placeholder, ?_, ?_⟩
  · rw [gs_run_sinkOps_success hfat, hpl.2.1, gs_run_total]
  · rw [gs_run_sinkOps_success hfat, hpl.2.1, gs_run_total]
    exact replaySink_success _ _ _ (createWavHeader_length 0 1 24000 16)
      (createWavHeader_length _ 1 24000 16)
  · rw [List.length_flatten, hpl.2.2.1, gs_run_total]
  · rw [declaredSize_createWavHeader]
  · intro hlt
    rw [declaredSize_createWavHeader]
    exact Nat.mod_eq_of_lt hlt

/-- Witness for C7 on a concrete one-segment sink run. -/
theorem c7_witness :
    ∃ ws : List (List Nat),
      (GS.generateSpeech (fun _ => .ok [[7, 8, 9]]) ("Alice: Hi.".toList)
          none true false).sinkOps =
        SinkOp.write (createWavHeader 0 1 24000 16) :: (ws.map SinkOp.write ++
          [SinkOp.seek 0,
           SinkOp.write (createWavHeader (GS.generateSpeech (fun _ => .ok [[7, 8, 9]])
             ("Alice: Hi.".toList) none true false).total 1 24000 16),
           SinkOp.close]) ∧
      replaySink (GS.generateSpeech (fun _ => .ok [[7, 8, 9]]) ("Alice: Hi.".toList)
          none true false).sinkOps =
        createWavHeader (GS.generateSpeech (fun _ => .ok [[7, 8, 9]]) ("Alice: Hi.".toList)
          none true false).total 1 24000 16 ++ ws.flatten ∧
      ws.flatten.length = (GS.generateSpeech (fun _ => .ok [[7, 8, 9]]) ("Alice: Hi.".toList)
        none true false).total ∧
      declaredSize (createWavHeader 0 1 24000 16) = 0 ∧
      declaredSize (createWavHeader (GS.generateSpeech (fun _ => .ok [[7, 8, 9]])
          ("Alice: Hi.".toList) none true false).total 1 24000 16) =
        (GS.generateSpeech (fun _ => .ok [[7, 8, 9]]) ("Alice: Hi.".toList)
          none true false).total % 4294967296 ∧
      ((GS.generateSpeech (fun _ => .ok [[7, 8, 9]]) ("Alice: Hi.".toList)
          none true false).total < 4294967296 →
        declaredSize (createWavHeader (GS.generateSpeech (fun _ => .ok [[7, 8, 9]])
            ("Alice: Hi.".toList) none true false).total 1 24000 16) =
          (GS.generateSpeech (fun _ => .ok [[7, 8, 9]]) ("Alice: Hi.".toList)
            none true false).total) :=
  c7_header_placeholder_and_final_size (fun _ => .ok [[7, 8, 9]]) ("Alice: Hi.".toList)
    none (by decide)

/-- Claim C8 (confirmed): when the final header rewrite fails on a run whose
segments all completed, the failure is non-fatal: `onError` is replaced by a
warning, the sink is still closed (last sink operation), `onComplete` still
fires (last event), the audio payload after the 44-byte header is byte-for-
byte what a successful finalization would have produced, and the file keeps
the placeholder header. -/
theorem c8_finalize_failure_nonfatal
    (synth : Nat → Except Str (List (List Nat))) (text : Str) (cfg : Option SpeakerMap)
    (h : (GS.generateSpeech synth text cfg true true).fatal = none) :
    Ev.warn ∈ (GS.generateSpeech synth text cfg true true).events ∧
    (GS.generateSpeech synth text cfg true true).events.getLast? = some Ev.complete ∧
    (GS.generateSpeech synth text cfg true true).sinkOps.getLast? = some SinkOp.close ∧
    (replaySink (GS.generateSpeech synth text cfg true true).sinkOps).drop 44 =
      (replaySink (GS.generateSpeech synth text cfg true false).sinkOps).drop 44 ∧
    (replaySink (GS.generateSpeech synth text cfg true true).sinkOps).take 44 =
      createWavHeader 0 1 24000 16 := by
  have hfat : (GS.gsLoop synth cfg true (GS.parseDialogueIntoChunks text).length
      (GS.parseDialogueIntoChunks text) 0).fatal = none := by
    rw [← gs_run_fatal synth text cfg true true]
    exact h
  have hpl := gs_loop_sink_payloads synth cfg (GS.parseDialogueIntoChunks text).length
    (GS.parseDialogueIntoChunks text) 0
  have hreplfail : replaySink (GS.generateSpeech synth text cfg true true).sinkOps =
      createWavHeader 0 1 24000 16 ++
        (chunkPayloads (GS.gsLoop synth cfg false (GS.parseDialogueIntoChunks text).length
          (GS.parseDialogueIntoChunks text) 0).events).flatten := by
    rw [gs_run_sinkOps_finfail hfat, hpl.2.1]
    exact replaySink_writes_only _ _ _ (Or.inr rfl)
  refine ⟨?_, ?_, ?_, ?_, ?_⟩
  · unfold GS.generateSpeech
    dsimp only
    rw [hfat]
    simp
  · unfold GS.generateSpeech
    dsimp only
    rw [hfat]
    exact getLast?_append_of_getLast? _ (by simp)
  · rw [gs_run_sinkOps_finfail hfat]
    exact getLast?_append_of_getLast?
      [SinkOp.write (createWavHeader 0 1 24000 16)]
      (getLast?_append_of_getLast?
        (GS.gsLoop synth cfg true (GS.parseDialogueIntoChunks text).length
          (GS.parseDialogueIntoChunks text) 0).sinkOps
        (show ([SinkOp.close] : List SinkOp).getLast? = some SinkOp.close from rfl))
  · rw [hreplfail]
    rw [gs_run_sinkOps_success hfat, hpl.2.1]
    rw [replaySink_success _ _ _ (createWavHeader_length 0 1 24000 16)
      (createWavHeader_length _ 1 24000 16)]
    rw [show (44 : Nat) = (createWavHeader 0 1 24000 16).length from
      (createWavHeader_length 0 1 24000 16).symm]
    rw [List.drop_left]
    rw [show (createWavHeader 0 1 24000 16).length = (createWavHeader
        (GS.gsLoop synth cfg true (GS.parseDialogueIntoChunks text).length
          (GS.parseDialogueIntoChunks text) 0).total 1 24000 16).length from by
      rw [createWavHeader_length, createWavHeader_length]]
    rw [List.drop_left]
  · rw [hreplfail]
    rw [show (44 : Nat) = (createWavHeader 0 1 24000 16).length from
      (createWavHeader_length 0 1 24000 16).symm]
    rw [List.take_left]

/-- Witness for C8 on a concrete one-segment run with failing finalization. -/
theorem c8_witness :
    Ev.warn ∈ (GS.generateSpeech (fun _ => .ok [[7]]) ("Alice: Hi.".toList)
      none true true).events ∧
    (GS.generateSpeech (fun _ => .ok [[7]]) ("Alice: Hi.".toList)
      none true true).events.getLast? = some Ev.complete ∧
    (GS.generateSpeech (fun _ => .ok [[7]]) ("Alice: Hi.".toList)
      none true true).sinkOps.getLast? = some SinkOp.close ∧
    (replaySink (GS.generateSpeech (fun _ => .ok [[7]]) ("Alice: Hi.".toList)
        none true true).sinkOps).drop 44 =
      (replaySink (GS.generateSpeech (fun _ => .ok [[7]]) ("Alice: Hi.".toList)
        none true false).sinkOps).drop 44 ∧
    (replaySink (GS.generateSpeech (fun _ => .ok [[7]]) ("Alice: Hi.".toList)
        none true true).sinkOps).take 44 = createWavHeader 0 1 24000 16 :=
  c8_finalize_failure_nonfatal (fun _ => .ok [[7]]) ("Alice: Hi.".toList) none (by decide)

/-- Claim C2 (counterexample): on the two-segment script
`Alice: Hello.` / `Bob: (whispers)` the second segment is cleaned to blank and
skipped, and the skip also skips its `onProgress` call: only one progress
value is reported (50) for two processed segments, and 100 is never reported.
This refutes both "onProgress is invoked once per processed segment including
skipped ones" and "the value reported for the last processed segment is
exactly 100". -/
theorem c2_counterexample :
    (GS.parseDialogueIntoChunks ("Alice: Hello.\nBob: (whispers)".toList)).length = 2 ∧
    progressVals (GS.generateSpeech (fun _ => .ok [[7]])
      ("Alice: Hello.\nBob: (whispers)".toList) none false false).events = [50] ∧
    (100 : Nat) ∉ progressVals (GS.generateSpeech (fun _ => .ok [[7]])
      ("Alice: Hello.\nBob: (whispers)".toList) none false false).events := by
  refine ⟨by decide, by decide, by decide⟩

/-- Claim C2 (amended): in the geminiService implementation, the sequence of
`onProgress` values is non-decreasing; when the run does not abort,
`onProgress` fires exactly once per segment whose cleaned text is non-blank
(blank-skipped segments trigger no call at all); and when the run does not
abort and the LAST segment is non-blank, the final reported value is
exactly 100. -/
theorem c2_progress_monotone_and_skips
    (synth : Nat → Except Str (List (List Nat))) (text : Str)
    (cfg : Option SpeakerMap) (u ff : Bool) :
    List.Pairwise (· ≤ ·)
      (progressVals (GS.generateSpeech synth text cfg u ff).events) ∧
    ((GS.generateSpeech synth text cfg u ff).fatal = none →
      (progressVals (GS.generateSpeech synth text cfg u ff).events).length =
        ((GS.parseDialogueIntoChunks text).filter GS.nonBlank).length) ∧
    ((GS.generateSpeech synth text cfg u ff).fatal = none →
      ∀ b, (GS.parseDialogueIntoChunks text).getLast? = some b → GS.nonBlank b = true →
      (progressVals (GS.generateSpeech synth text cfg u ff).events).getLast? = some 100) := by
  refine ⟨?_, ?_, ?_⟩
  · rw [gs_run_progressVals]
    exact (gs_progress_mono synth cfg u _ _ 0).1
  · intro hf
    rw [gs_run_progressVals]
    rw [gs_run_fatal] at hf
    exact gs_progress_count synth cfg u _ _ 0 hf
  · intro hf b hl hb
    rw [gs_run_progressVals]
    rw [gs_run_fatal] at hf
    have hlast := gs_progress_last synth cfg u _ _ 0 b hf hl hb
    rw [hlast]
    have hne : GS.parseDialogueIntoChunks text ≠ [] := by
      intro hcon
      rw [hcon] at hl
      simp at hl
    have hlen : 1 ≤ (GS.parseDialogueIntoChunks text).length := List.length_pos.2 hne
    rw [Nat.zero_add, jsRound100_self hlen]

/-- Witness for C2 on a concrete two-segment run with both segments
non-blank: progress values are non-decreasing, fire once per segment, and end
at exactly 100. -/
theorem c2_witness :
    List.Pairwise (· ≤ ·) (progressVals (GS.generateSpeech (fun _ => .ok [[1]])
      ("Alice: Hi.\nBob: Yo.".toList) none false false).events) ∧
    (progressVals (GS.generateSpeech (fun _ => .ok [[1]])
      ("Alice: Hi.\nBob: Yo.".toList) none false false).events).length = 2 ∧
    (progressVals (GS.generateSpeech (fun _ => .ok [[1]])
      ("Alice: Hi.\nBob: Yo.".toList) none false false).events).getLast? = some 100 := by
  have h := c2_progress_monotone_and_skips (fun _ => .ok [[1]])
    ("Alice: Hi.\nBob: Yo.".toList) none false false
  refine ⟨h.1, ?_, ?_⟩
  · rw [h.2.1 (by decide)]
    decide
  · exact h.2.2 (by decide) ⟨"Bob".toList, "Yo.".toList⟩ (by decide) (by decide)

/-- Claim C6 (amended): only the geminiService resolver has the claimed
precedence: a case-insensitive substring match against the built-in identities
(Roberta, Milton) yields that identity's fixed voice regardless of the map;
otherwise an exact-name hit in the explicit map yields the mapped voice;
otherwise the global default `Kore`. The part_000 resolver has no built-in
identities at all: the first map entry whose lowercased first name-word is
contained in the lowercased speaker wins, and otherwise the default is
`Aoede`. -/
theorem c6_voice_precedence (speaker : Str) (cfg : SpeakerMap) :
    (includes (lower speaker) ("roberta".toList) = true →
      ∀ cfg2 : Option SpeakerMap, GS.resolveVoice speaker cfg2 = "Aoede".toList) ∧
    (includes (lower speaker) ("roberta".toList) = false →
      includes (lower speaker) ("milton".toList) = true →
      ∀ cfg2 : Option SpeakerMap, GS.resolveVoice speaker cfg2 = "Enceladus".toList) ∧
    (includes (lower speaker) ("roberta".toList) = false →
      includes (lower speaker) ("milton".toList) = false →
      ∀ e, cfg.find? (fun e => e.1 == speaker) = some e →
        GS.resolveVoice speaker (some cfg) = e.2) ∧
    (includes (lower speaker) ("roberta".toList) = false →
      includes (lower speaker) ("milton".toList) = false →
      cfg.find? (fun e => e.1 == speaker) = none →
      GS.resolveVoice speaker (some cfg) = "Kore".toList) ∧
    (includes (lower speaker) ("roberta".toList) = false →
      includes (lower speaker) ("milton".toList) = false →
      GS.resolveVoice speaker none = "Kore".toList) ∧
    P0.resolveVoice speaker none = "Aoede".toList ∧
    (∀ e, cfg.find? (fun e => includes (lower speaker) (P0.firstWord (lower e.1))) =
        some e →
      P0.resolveVoice speaker (some cfg) = e.2) ∧
    (cfg.find? (fun e => includes (lower speaker) (P0.firstWord (lower e.1))) = none →
      P0.resolveVoice speaker (some cfg) = "Aoede".toList) := by
  refine ⟨fun h cfg2 => ?_, fun h1 h2 cfg2 => ?_, fun h1 h2 e he => ?_,
    fun h1 h2 he => ?_, fun h1 h2 => ?_, ?_, fun e he => ?_, fun he => ?_⟩
  · unfold GS.resolveVoice
    dsimp only
    rw [h]
    simp
  · unfold GS.resolveVoice
    dsimp only
    rw [h1, h2]
    simp
  · unfold GS.resolveVoice
    dsimp only
    rw [h1, h2, he]
    simp
  · unfold GS.resolveVoice
    dsimp only
    rw [h1, h2, he]
    simp
  · unfold GS.resolveVoice
    dsimp only
    rw [h1, h2]
    simp
  · rfl
  · unfold P0.resolveVoice
    dsimp only
    rw [he]
  · unfold P0.resolveVoice
    dsimp only
    rw [he]

/-- Witness for C6 at concrete speakers and maps: in geminiService the
built-in identities win over a conflicting map entry, map hits and the default
are as claimed; in part_000 a first-word substring map hit wins and otherwise
the default `Aoede` is returned. -/
theorem c6_witness :
    GS.resolveVoice ("Roberta Erickson".toList)
      (some [("Roberta Erickson".toList, "X".toList)]) = "Aoede".toList ∧
    GS.resolveVoice ("Milton Dilts".toList) none = "Enceladus".toList ∧
    GS.resolveVoice ("Alice".toList) (some [("Alice".toList, "Puck".toList)]) = "Puck".toList ∧
    GS.resolveVoice ("Alice".toList) (some []) = "Kore".toList ∧
    GS.resolveVoice ("Bob".toList) none = "Kore".toList ∧
    P0.resolveVoice ("Alice".toList) none = "Aoede".toList ∧
    P0.resolveVoice ("Alice Smith".toList)
      (some [("alice jones".toList, "Zephyr".toList)]) = "Zephyr".toList ∧
    P0.resolveVoice ("Bob".toList) (some [("alice jones".toList, "Zephyr".toList)]) =
      "Aoede".toList :=
  ⟨(c6_voice_precedence ("Roberta Erickson".toList) []).1 (by decide) _,
   (c6_voice_precedence ("Milton Dilts".toList) []).2.1 (by decide) (by decide) _,
   (c6_voice_precedence ("Alice".toList) [("Alice".toList, "Puck".toList)]).2.2.1
     (by decide) (by decide) ("Alice".toList, "Puck".toList) (by decide),
   (c6_voice_precedence ("Alice".toList) []).2.2.2.1 (by decide) (by decide) (by decide),
   (c6_voice_precedence ("Bob".toList) []).2.2.2.2.1 (by decide) (by decide),
   (c6_voice_precedence ("Alice".toList) []).2.2.2.2.2.1,
   (c6_voice_precedence ("Alice Smith".toList)
       [("alice jones".toList, "Zephyr".toList)]).2.2.2.2.2.2.1
     ("alice jones".toList, "Zephyr".toList) (by decide),
   (c6_voice_precedence ("Bob".toList)
       [("alice jones".toList, "Zephyr".toList)]).2.2.2.2.2.2.2 (by decide)⟩

/-- Claim C6 (counterexample): the part_000 resolver has no built-in identity
precedence. With no map, `Milton Dilts` resolves to the default `Aoede`, not
the fixed `Enceladus`; and a caller map entry whose first name-word is
`roberta` captures `Roberta Erickson`, overriding the supposedly fixed
`Aoede`. -/
theorem c6_counterexample :
    P0.resolveVoice ("Milton Dilts".toList) none = "Aoede".toList ∧
    ("Aoede".toList : Str) ≠ "Enceladus".toList ∧
    P0.resolveVoice ("Roberta Erickson".toList)
      (some [("roberta man".toList, "Puck".toList)]) = "Puck".toList ∧
    ("Puck".toList : Str) ≠ "Aoede".toList := by
  refine ⟨by decide, by decide, by decide, by decide⟩

/-- Claim C9 (counterexample): on the input line
`(softly) Roberta Erickson: Peace be with you.` the pipeline does NOT resolve
the segment to the Roberta voice: the line fails the speaker regex (it does
not start with a name character), so the whole line is attributed to
`Narrator` and the single synthesis request uses the default voice `Kore`,
not `Aoede`. -/
theorem c9_counterexample :
    (GS.generateSpeech (fun _ => .ok [[1]])
        ("(softly) Roberta Erickson: Peace be with you.".toList) none false false).reqs =
      [("Roberta Erickson: Peace be with you.".toList, "Kore".toList)] ∧
    ("Kore".toList : Str) ≠ "Aoede".toList := by
  constructor
  · decide
  · decide

/-- Claim C9 (amended): the stage direction IS stripped from the text sent to
synthesis, but the line is not recognized as a speaker line: the segmenter
attributes it to the current speaker (`Narrator` by default) and the segment
is synthesized with that speaker's resolved voice (`Kore`), not the canonical
Roberta voice. -/
theorem c9_stage_direction_stripped_but_narrator :
    GS.speakerMatch ("(softly) Roberta Erickson: Peace be with you.".toList) = none ∧
    GS.parseDialogueIntoChunks ("(softly) Roberta Erickson: Peace be with you.".toList) =
      [⟨"Narrator".toList, "(softly) Roberta Erickson: Peace be with you.".toList⟩] ∧
    GS.cleanText ("(softly) Roberta Erickson: Peace be with you.".toList) =
      "Roberta Erickson: Peace be with you.".toList ∧
    GS.resolveVoice ("Narrator".toList) none = "Kore".toList := by
  refine ⟨by decide, by decide, by decide, by decide⟩

/-- Claim C4 (code bug): the long-buffer sentence-splitting path of the
geminiService segmenter emits a leading segment whose text is empty when the
first sentence unit alone exceeds the budget (1501 `a`s), and a speaker line
whose name part is all whitespace yields a segment whose trimmed speaker is
empty — both contradict the spec's non-empty DialogueSegment data model. -/
theorem c4_empty_segment_emitted :
    (GS.parseDialogueIntoChunks (List.replicate 1501 'a')).map Block.text =
      [[], List.replicate 1501 'a'] ∧
    GS.parseDialogueIntoChunks ("   : hello".toList) = [⟨[], "hello".toList⟩] := by
  constructor
  · rw [gs_parse_replicate_a (by norm_num)]
    rfl
  · decide

theorem isTerm_not_ws {c : Char} (h : isTerm c = true) : isWs c = false := by
  simp [isTerm] at h
  rcases h with (h | h) | h <;> rw [h] <;> rfl

theorem isQuote_not_ws {c : Char} (h : isQuote c = true) : isWs c = false := by
  simp [isQuote] at h
  rcases h with h | h <;> rw [h] <;> rfl

theorem isQuote_not_term {c : Char} (h : isQuote c = true) : isTerm c = false := by
  simp [isQuote] at h
  rcases h with h | h <;> rw [h] <;> rfl

theorem dropWhile_eq_nil_of_all {p : Char → Bool} {s : Str}
    (h : ∀ c ∈ s, p c = true) : s.dropWhile p = [] := by
  induction s with
  | nil => rfl
  | cons c cs ih =>
    rw [List.dropWhile_cons, if_pos (by rw [h c (by simp)])]
    exact ih (fun d hd => h d (by simp [hd]))

theorem dropWhile_append_of_all {p : Char → Bool} {X : Str} (Y : Str)
    (h : ∀ c ∈ X, p c = true) : (X ++ Y).dropWhile p = Y.dropWhile p := by
  induction X with
  | nil => rfl
  | cons c cs ih =>
    rw [List.cons_append, List.dropWhile_cons, if_pos (by rw [h c (by simp)])]
    exact ih (fun d hd => h d (by simp [hd]))

theorem dropWhile_cons_of_neg {p : Char → Bool} {c : Char} {cs : Str}
    (h : p c = false) : (c :: cs).dropWhile p = c :: cs := by
  rw [List.dropWhile_cons, if_neg (by rw [h]; exact Bool.false_ne_true)]

theorem mem_trim {c : Char} {s : Str} (h : c ∈ trim s) : c ∈ s := by
  unfold trim at h
  rw [List.mem_reverse] at h
  have h2 : c ∈ (s.dropWhile isWs).reverse := (List.dropWhile_sublist _).mem h
  rw [List.mem_reverse] at h2
  exact (List.dropWhile_sublist _).mem h2

theorem isTrimmedUnit_of_all_nonterm {s : Str}
    (h : ∀ c ∈ s, isTerm c = false) : isTrimmedUnit s = true := by
  unfold isTrimmedUnit
  have hnil : s.dropWhile (fun c => !isTerm c) = [] :=
    dropWhile_eq_nil_of_all (by intro c hc; simp [h c hc])
  rw [hnil]
  rfl

theorem isTrimmedUnit_of_all_term {s : Str}
    (h : ∀ c ∈ s, isTerm c = true) : isTrimmedUnit s = true := by
  unfold isTrimmedUnit
  cases s with
  | nil => rfl
  | cons c cs =>
    rw [dropWhile_cons_of_neg (by simp [h c (by simp)])]
    rw [dropWhile_eq_nil_of_all h]

theorem trim_of_last_not_ws {A : Str} {c : Char} (h : isWs c = false) :
    trim (A ++ [c]) = (A ++ [c]).dropWhile isWs := by
  unfold trim
  by_cases hd : A.dropWhile isWs = []
  · rw [dropWhile_append_of_nil hd, dropWhile_cons_of_neg h]
    simp [List.dropWhile, h]
  · rw [dropWhile_append_of_ne_nil hd]
    rw [List.reverse_append]
    rw [show ([c] : Str).reverse = [c] from rfl, List.singleton_append]
    rw [dropWhile_cons_of_neg h]
    rw [List.reverse_cons, List.reverse_reverse]

/-- The trim of a sentence-like unit (non-terminator run, terminator run,
optional quote) still has the single-unit shape. -/
theorem isTrimmedUnit_trim_shape {R T Q : Str}
    (hR : ∀ c ∈ R, isTerm c = false) (hT : ∀ c ∈ T, isTerm c = true)
    (hQ : Q = [] ∨ ∃ q, isQuote q = true ∧ Q = [q]) :
    isTrimmedUnit (trim (R ++ T ++ Q)) = true := by
  by_cases hTnil : T = []
  · rcases hQ with hQ | ⟨q, hq, hQ⟩
    · subst hTnil hQ
      apply isTrimmedUnit_of_all_nonterm
      intro c hc
      have := mem_trim hc
      simp at this
      exact hR c this
    · subst hTnil hQ
      apply isTrimmedUnit_of_all_nonterm
      intro c hc
      have := mem_trim hc
      simp at this
      rcases this with hc2 | hc2
      · exact hR c hc2
      · rw [hc2]
        exact isQuote_not_term hq
  · have hY : ∃ Y c0, T ++ Q = Y ++ [c0] ∧ isWs c0 = false := by
      rcases hQ with hQ | ⟨q, hq, hQ⟩
      · rcases List.eq_nil_or_concat T with hT2 | ⟨Y, c0, hT2⟩
        · exact absurd hT2 hTnil
        · refine ⟨Y, c0, by rw [hQ, hT2]; simp, ?_⟩
          apply isTerm_not_ws
          exact hT c0 (by rw [hT2]; simp)
      · exact ⟨T, q, by rw [hQ], isQuote_not_ws hq⟩
    rcases hY with ⟨Y, c0, hYeq, hc0⟩
    rw [show R ++ T ++ Q = (R ++ Y) ++ [c0] from by rw [List.append_assoc, hYeq]; simp]
    rw [trim_of_last_not_ws hc0]
    rw [show (R ++ Y) ++ [c0] = R ++ (Y ++ [c0]) from by simp]
    rw [← hYeq]
    have main : ∀ Z : Str, (∀ c ∈ Z, isTerm c = false) →
        isTrimmedUnit (Z ++ (T ++ Q)) = true := by
      intro Z hZ
      unfold isTrimmedUnit
      rw [show Z ++ (T ++ Q) = Z ++ (T ++ Q) from rfl]
      rw [dropWhile_append_of_all (T ++ Q) (by intro c hc; simp [hZ c hc])]
      cases T with
      | nil => exact absurd rfl hTnil
      | cons t ts =>
        rw [List.cons_append]
        rw [dropWhile_cons_of_neg (by simp [hT t (by simp)])]
        rw [List.dropWhile_cons, if_pos (by rw [hT t (by simp)])]
        rw [dropWhile_append_of_all Q (fun c hc => hT c (by simp [hc]))]
        rcases hQ with hQ | ⟨q, hq, hQ⟩
        · rw [hQ]
          rfl
        · rw [hQ]
          rw [dropWhile_cons_of_neg (isQuote_not_term hq)]
          simp [hq]
    by_cases hd : R.dropWhile isWs = []
    · rw [dropWhile_append_of_nil hd]
      have := main [] (by intro c hc; simp at hc)
      rw [List.nil_append] at this
      cases T with
      | nil => exact absurd rfl hTnil
      | cons t ts =>
        rw [List.cons_append, dropWhile_cons_of_neg (isTerm_not_ws (hT t (by simp)))]
        rw [show t :: (ts ++ Q) = (t :: ts) ++ Q from rfl]
        exact this
    · rw [dropWhile_append_of_ne_nil hd]
      exact main (R.dropWhile isWs)
        (fun c hc => hR c ((List.dropWhile_sublist _).mem hc))

/-- Every unit emitted by the geminiService sentence scan has the shape
non-terminator run, terminator run, optional quote. -/
theorem gs_ssGo_shape :
    ∀ (cs accR accT : Str),
      (∀ c ∈ accR, isTerm c = false) → (∀ c ∈ accT, isTerm c = true) →
      ∀ u ∈ GS.ssGo cs accR accT,
        ∃ R T Q, u = R ++ T ++ Q ∧ (∀ c ∈ R, isTerm c = false) ∧
          (∀ c ∈ T, isTerm c = true) ∧ (Q = [] ∨ ∃ q, isQuote q = true ∧ Q = [q]) := by
  intro cs
  induction cs with
  | nil =>
    intro accR accT hR hT u hu
    unfold GS.ssGo at hu
    by_cases hTe : accT.isEmpty
    · rw [if_pos hTe] at hu
      by_cases hRe : accR.isEmpty
      · rw [if_pos hRe] at hu
        simp at hu
      · rw [if_neg hRe] at hu
        simp at hu
        refine ⟨accR.reverse, [], [], by simp [hu], ?_, by simp, Or.inl rfl⟩
        intro c hc
        exact hR c (by simpa using hc)
    · rw [if_neg hTe] at hu
      simp at hu
      refine ⟨accR.reverse, accT.reverse, [], by simp [hu], ?_, ?_, Or.inl rfl⟩
      · intro c hc
        exact hR c (by simpa using hc)
      · intro c hc
        exact hT c (by simpa using hc)
  | cons c cs ih =>
    intro accR accT hR hT u hu
    unfold GS.ssGo at hu
    by_cases hTe : accT.isEmpty
    · rw [if_pos hTe] at hu
      by_cases hc : isTerm c
      · rw [if_pos hc] at hu
        by_cases hRe : accR.isEmpty
        · rw [if_pos hRe] at hu
          exact ih [] [] (by simp) (by simp) u hu
        · rw [if_neg hRe] at hu
          refine ih accR [c] hR ?_ u hu
          intro d hd
          simp at hd
          rw [hd]
          exact hc
      · rw [if_neg hc] at hu
        refine ih (c :: accR) [] ?_ (by simp) u hu
        intro d hd
        rcases List.mem_cons.1 hd with hd | hd
        · rw [hd]
          simpa using hc
        · exact hR d hd
    · rw [if_neg hTe] at hu
      by_cases hc : isTerm c
      · rw [if_pos hc] at hu
        refine ih accR (c :: accT) hR ?_ u hu
        intro d hd
        rcases List.mem_cons.1 hd with hd | hd
        · rw [hd]
          exact hc
        · exact hT d hd
      · rw [if_neg hc] at hu
        by_cases hq : isQuote c
        · rw [if_pos hq] at hu
          rcases List.mem_cons.1 hu with hu | hu
          · refine ⟨accR.reverse, accT.reverse, [c], by simp [hu], ?_, ?_, Or.inr ⟨c, hq, rfl⟩⟩
            · intro d hd
              exact hR d (by simpa using hd)
            · intro d hd
              exact hT d (by simpa using hd)
          · exact ih [] [] (by simp) (by simp) u hu
        · rw [if_neg hq] at hu
          rcases List.mem_cons.1 hu with hu | hu
          · refine ⟨accR.reverse, accT.reverse, [], by simp [hu], ?_, ?_, Or.inl rfl⟩
            · intro d hd
              exact hR d (by simpa using hd)
            · intro d hd
              exact hT d (by simpa using hd)
          · refine ih [c] [] ?_ (by simp) u hu
            intro d hd
            simp at hd
            rw [hd]
            simpa using hc

/-- A non-empty accumulator guarantees the sentence scan emits something. -/
theorem gs_ssGo_ne_nil :
    ∀ (cs accR accT : Str), accR ≠ [] ∨ accT ≠ [] → GS.ssGo cs accR accT ≠ [] := by
  intro cs
  induction cs with
  | nil =>
    intro accR accT hne
    unfold GS.ssGo
    by_cases hTe : accT.isEmpty
    · rw [if_pos hTe]
      have hRne : accR ≠ [] := by
        rcases hne with h | h
        · exact h
        · exact absurd (List.isEmpty_iff.1 hTe) h
      rw [if_neg (by simpa [List.isEmpty_iff] using hRne)]
      simp
    · rw [if_neg hTe]
      simp
  | cons c cs ih =>
    intro accR accT hne
    unfold GS.ssGo
    by_cases hTe : accT.isEmpty
    · rw [if_pos hTe]
      have hRne : accR ≠ [] := by
        rcases hne with h | h
        · exact h
        · exact absurd (List.isEmpty_iff.1 hTe) h
      by_cases hc : isTerm c
      · rw [if_pos hc, if_neg (by simpa [List.isEmpty_iff] using hRne)]
        exact ih accR [c] (Or.inr (by simp))
      · rw [if_neg hc]
        exact ih (c :: accR) [] (Or.inl (by simp))
    · rw [if_neg hTe]
      by_cases hc : isTerm c
      · rw [if_pos hc]
        exact ih accR (c :: accT) (Or.inr (by simp))
      · rw [if_neg hc]
        by_cases hq : isQuote c
        · rw [if_pos hq]
          simp
        · rw [if_neg hq]
          simp

/-- If the sentence scan finds no unit at all, the input is all terminators. -/
theorem gs_splitSentences_nil {s : Str} (h : GS.splitSentences s = []) :
    ∀ c ∈ s, isTerm c = true := by
  induction s with
  | nil => intro c hc; simp at hc
  | cons c cs ih =>
    intro d hd
    unfold GS.splitSentences GS.ssGo at h
    by_cases hc : isTerm c
    · rw [if_pos (by simp), if_pos hc, if_pos (by simp)] at h
      rcases List.mem_cons.1 hd with hd | hd
      · rw [hd]; exact hc
      · exact ih h d hd
    · rw [if_pos (by simp), if_neg hc] at h
      exact absurd h (gs_ssGo_ne_nil cs [c] [] (Or.inl (by simp)))

/-- Every unit handed to the packing loop is single-unit-shaped up to trim. -/
theorem gs_sentencesOf_unitOK (buf : Str) :
    ∀ u ∈ GS.sentencesOf buf, isTrimmedUnit (trim u) = true := by
  intro u hu
  unfold GS.sentencesOf at hu
  cases hss : GS.splitSentences buf with
  | nil =>
    rw [hss] at hu
    simp at hu
    subst hu
    have hterm := gs_splitSentences_nil hss
    have htr : trim u = u :=
      trim_eq_self_of_all (fun c hc => isTerm_not_ws (hterm c hc))
    rw [htr]
    exact isTrimmedUnit_of_all_term hterm
  | cons s0 rest =>
    rw [hss] at hu
    have hu2 : u ∈ GS.splitSentences buf := by
      rw [hss]
      exact hu
    rcases gs_ssGo_shape buf [] [] (by simp) (by simp) u hu2 with
      ⟨R, T, Q, hu3, hR, hT, hQ⟩
    rw [hu3]
    exact isTrimmedUnit_trim_shape hR hT hQ

/-- The geminiService packing loop only emits blocks within the budget or
single sentence-like units. -/
theorem gs_packGo_budget (sp : Str) :
    ∀ (sents : List Str) (temp : Str),
      (∀ s ∈ sents, isTrimmedUnit (trim s) = true) →
      (temp.length ≤ 1500 ∨ isTrimmedUnit (trim temp) = true) →
      ∀ b ∈ GS.packGo sp sents temp,
        b.text.length ≤ 1500 ∨ isTrimmedUnit b.text = true := by
  intro sents
  induction sents with
  | nil =>
    intro temp hsents htemp b hb
    unfold GS.packGo at hb
    by_cases he : (trim temp).isEmpty
    · rw [if_pos he] at hb
      simp at hb
    · rw [if_neg he] at hb
      simp at hb
      subst hb
      rcases htemp with h | h
      · exact Or.inl (le_trans (length_trim_le temp) h)
      · exact Or.inr h
  | cons s rest ih =>
    intro temp hsents htemp b hb
    unfold GS.packGo at hb
    by_cases hover : GS.MAX_CHAR_LIMIT < (temp ++ s).length
    · rw [if_pos hover] at hb
      rcases List.mem_cons.1 hb with hb | hb
      · rw [hb]
        rcases htemp with h | h
        · exact Or.inl (le_trans (length_trim_le temp) h)
        · exact Or.inr h
      · exact ih s (fun t ht => hsents t (by simp [ht]))
          (Or.inr (hsents s (by simp))) b hb
    · rw [if_neg hover] at hb
      refine ih (temp ++ s) (fun t ht => hsents t (by simp [ht])) ?_ b hb
      left
      simp [GS.MAX_CHAR_LIMIT] at hover
      rw [List.length_append]
      exact hover

/-- Every block emitted by `pushBuffer` is within the budget or a single
sentence-like unit. -/
theorem gs_pushBuffer_budget (sp buf : Str) :
    ∀ b ∈ GS.pushBuffer sp buf, b.text.length ≤ 1500 ∨ isTrimmedUnit b.text = true := by
  intro b hb
  unfold GS.pushBuffer at hb
  by_cases he : (trim buf).isEmpty
  · rw [if_pos he] at hb
    simp at hb
  · rw [if_neg he] at hb
    by_cases hlong : GS.MAX_CHAR_LIMIT < buf.length
    · rw [if_pos hlong] at hb
      exact gs_packGo_budget sp (GS.sentencesOf buf) []
        (gs_sentencesOf_unitOK buf) (Or.inl (by simp)) b hb
    · rw [if_neg hlong] at hb
      simp at hb
      subst hb
      left
      have h1 := length_trim_le buf
      have h2 : buf.length ≤ 1500 := by simpa [GS.MAX_CHAR_LIMIT] using hlong
      exact le_trans h1 h2

/-- Every block of the per-line loop comes from some `pushBuffer` call. -/
theorem gs_parseLines_mem :
    ∀ (ls : List Str) (sp buf : Str) (b : Block), b ∈ GS.parseLines ls sp buf →
      ∃ sp2 buf2, b ∈ GS.pushBuffer sp2 buf2 := by
  intro ls
  induction ls with
  | nil =>
    intro sp buf b hb
    exact ⟨sp, buf, hb⟩
  | cons l ls ih =>
    intro sp buf b hb
    unfold GS.parseLines at hb
    cases hm : GS.speakerMatch l with
    | some nr =>
      rw [hm] at hb
      rcases List.mem_append.1 hb with hb | hb
      · exact ⟨sp, buf, hb⟩
      · exact ih _ _ b hb
    | none =>
      rw [hm] at hb
      by_cases he : (trim l).isEmpty
      · rw [if_pos he] at hb
        exact ih _ _ b hb
      · rw [if_neg he] at hb
        exact ih _ _ b hb

theorem p0_unitLike_shape {R T : Str}
    (hR : ∀ c ∈ R, isTerm c = false) (hT : ∀ c ∈ T, isTerm c = true) :
    P0.unitLike (R ++ T) = true := by
  unfold P0.unitLike
  rw [dropWhile_append_of_all T (by intro c hc; simp [hR c hc])]
  cases T with
  | nil => rfl
  | cons t ts =>
    rw [dropWhile_cons_of_neg (by simp [hT t (by simp)])]
    rw [dropWhile_eq_nil_of_all hT]
    rfl

theorem p0_unitLike_of_all_term {s : Str}
    (h : ∀ c ∈ s, isTerm c = true) : P0.unitLike s = true := by
  have h0 : P0.unitLike (([] : Str) ++ s) = true :=
    p0_unitLike_shape (by intro c hc; simp at hc) h
  simpa using h0

/-- Every unit emitted by the part_000 sentence scan is a non-terminator run
followed by a terminator run. -/
theorem p0_ssGo_shape :
    ∀ (cs accR accT : Str),
      (∀ c ∈ accR, isTerm c = false) → (∀ c ∈ accT, isTerm c = true) →
      ∀ u ∈ P0.ssGo cs accR accT,
        ∃ R T, u = R ++ T ∧ (∀ c ∈ R, isTerm c = false) ∧ (∀ c ∈ T, isTerm c = true) := by
  intro cs
  induction cs with
  | nil =>
    intro accR accT hR hT u hu
    unfold P0.ssGo at hu
    by_cases hTe : accT.isEmpty
    · rw [if_pos hTe] at hu
      by_cases hRe : accR.isEmpty
      · rw [if_pos hRe] at hu
        simp at hu
      · rw [if_neg hRe] at hu
        simp at hu
        refine ⟨accR.reverse, [], by simp [hu], ?_, by simp⟩
        intro c hc
        exact hR c (by simpa using hc)
    · rw [if_neg hTe] at hu
      simp at hu
      refine ⟨accR.reverse, accT.reverse, hu, ?_, ?_⟩
      · intro c hc
        exact hR c (by simpa using hc)
      · intro c hc
        exact hT c (by simpa using hc)
  | cons c cs ih =>
    intro accR accT hR hT u hu
    unfold P0.ssGo at hu
    by_cases hTe : accT.isEmpty
    · rw [if_pos hTe] at hu
      by_cases hc : isTerm c
      · rw [if_pos hc] at hu
        by_cases hRe : accR.isEmpty
        · rw [if_pos hRe] at hu
          exact ih [] [] (by simp) (by simp) u hu
        · rw [if_neg hRe] at hu
          refine ih accR [c] hR ?_ u hu
          intro d hd
          simp at hd
          rw [hd]
          exact hc
      · rw [if_neg hc] at hu
        refine ih (c :: accR) [] ?_ (by simp) u hu
        intro d hd
        rcases List.mem_cons.1 hd with hd | hd
        · rw [hd]
          simpa using hc
        · exact hR d hd
    · rw [if_neg hTe] at hu
      by_cases hc : isTerm c
      · rw [if_pos hc] at hu
        refine ih accR (c :: accT) hR ?_ u hu
        intro d hd
        rcases List.mem_cons.1 hd with hd | hd
        · rw [hd]
          exact hc
        · exact hT d hd
      · rw [if_neg hc] at hu
        rcases List.mem_cons.1 hu with hu | hu
        · refine ⟨accR.reverse, accT.reverse, hu, ?_, ?_⟩
          · intro d hd
            exact hR d (by simpa using hd)
          · intro d hd
            exact hT d (by simpa using hd)
        · refine ih [c] [] ?_ (by simp) u hu
          intro d hd
          simp at hd
          rw [hd]
          simpa using hc

theorem p0_ssGo_ne_nil :
    ∀ (cs accR accT : Str), accR ≠ [] ∨ accT ≠ [] → P0.ssGo cs accR accT ≠ [] := by
  intro cs
  induction cs with
  | nil =>
    intro accR accT hne
    unfold P0.ssGo
    by_cases hTe : accT.isEmpty
    · rw [if_pos hTe]
      have hRne : accR ≠ [] := by
        rcases hne with h | h
        · exact h
        · exact absurd (List.isEmpty_iff.1 hTe) h
      rw [if_neg (by simpa [List.isEmpty_iff] using hRne)]
      simp
    · rw [if_neg hTe]
      simp
  | cons c cs ih =>
    intro accR accT hne
    unfold P0.ssGo
    by_cases hTe : accT.isEmpty
    · rw [if_pos hTe]
      have hRne : accR ≠ [] := by
        rcases hne with h | h
        · exact h
        · exact absurd (List.isEmpty_iff.1 hTe) h
      by_cases hc : isTerm c
      · rw [if_pos hc, if_neg (by simpa [List.isEmpty_iff] using hRne)]
        exact ih accR [c] (Or.inr (by simp))
      · rw [if_neg hc]
        exact ih (c :: accR) [] (Or.inl (by simp))
    · rw [if_neg hTe]
      by_cases hc : isTerm c
      · rw [if_pos hc]
        exact ih accR (c :: accT) (Or.inr (by simp))
      · rw [if_neg hc]
        simp

theorem p0_ssGo_nil_all_term {s : Str} (h : P0.ssGo s [] [] = []) :
    ∀ c ∈ s, isTerm c = true := by
  induction s with
  | nil => intro c hc; simp at hc
  | cons c cs ih =>
    intro d hd
    unfold P0.ssGo at h
    by_cases hc : isTerm c
    · rw [if_pos (by simp), if_pos hc, if_pos (by simp)] at h
      rcases List.mem_cons.1 hd with hd | hd
      · rw [hd]; exact hc
      · exact ih h d hd
    · rw [if_pos (by simp), if_neg hc] at h
      exact absurd h (p0_ssGo_ne_nil cs [c] [] (Or.inl (by simp)))

theorem p0_sentencesOf_unitOK (buf : Str) :
    ∀ u ∈ P0.sentencesOf buf, P0.unitLike u = true := by
  intro u hu
  unfold P0.sentencesOf at hu
  cases hss : P0.ssGo buf [] [] with
  | nil =>
    rw [hss] at hu
    simp at hu
    subst hu
    exact p0_unitLike_of_all_term (p0_ssGo_nil_all_term hss)
  | cons s0 rest =>
    rw [hss] at hu
    have hu2 : u ∈ P0.ssGo buf [] [] := by
      rw [hss]
      exact hu
    rcases p0_ssGo_shape buf [] [] (by simp) (by simp) u hu2 with ⟨R, T, hu3, hR, hT⟩
    rw [hu3]
    exact p0_unitLike_shape hR hT

/-- The part_000 packing loop only emits blocks of length at most 1501 (the
budget check ignores the joining space) or single sentence-like units. -/
theorem p0_packGo_budget (sp : Str) :
    ∀ (sents : List Str) (temp : Str),
      (∀ s ∈ sents, P0.unitLike s = true) →
      (temp.length ≤ 1501 ∨ P0.unitLike temp = true) →
      ∀ b ∈ P0.packGo sp sents temp,
        b.text.length ≤ 1501 ∨ P0.unitLike b.text = true := by
  intro sents
  induction sents with
  | nil =>
    intro temp hsents htemp b hb
    unfold P0.packGo at hb
    by_cases he : temp.isEmpty
    · rw [if_pos he] at hb
      simp at hb
    · rw [if_neg he] at hb
      simp at hb
      subst hb
      exact htemp
  | cons s rest ih =>
    intro temp hsents htemp b hb
    unfold P0.packGo at hb
    by_cases hover : P0.MAX_CHARS < (temp ++ s).length
    · rw [if_pos hover] at hb
      rcases List.mem_cons.1 hb with hb | hb
      · rw [hb]
        exact htemp
      · exact ih s (fun t ht => hsents t (by simp [ht]))
          (Or.inr (hsents s (by simp))) b hb
    · rw [if_neg hover] at hb
      refine ih _ (fun t ht => hsents t (by simp [ht])) ?_ b hb
      left
      simp [P0.MAX_CHARS] at hover
      by_cases he : temp.isEmpty
      · rw [if_pos he]
        have : temp.length + s.length ≤ 1500 := hover
        omega
      · rw [if_neg he]
        have : temp.length + s.length ≤ 1500 := hover
        simp
        omega

/-- Every block emitted by the part_000 segmenter is within 1501 characters
or a single sentence-like unit. -/
theorem p0_parse_budget (text : Str) :
    ∀ b ∈ P0.parseDialogueIntoChunks text,
      b.text.length ≤ 1501 ∨ P0.unitLike b.text = true := by
  intro b hb
  unfold P0.parseDialogueIntoChunks at hb
  rcases List.mem_flatMap.1 hb with ⟨c, _, hbc⟩
  unfold P0.splitChunk at hbc
  by_cases hlong : P0.MAX_CHARS < c.text.length
  · rw [if_pos hlong] at hbc
    exact p0_packGo_budget c.speaker (P0.sentencesOf c.text) []
      (p0_sentencesOf_unitOK c.text) (Or.inl (by simp)) b hbc
  · rw [if_neg hlong] at hbc
    simp at hbc
    subst hbc
    left
    simp [P0.MAX_CHARS] at hlong
    omega

theorem takeWhile_append_of_all {p : Char → Bool} {X : Str} (Y : Str)
    (h : ∀ c ∈ X, p c = true) : (X ++ Y).takeWhile p = X ++ Y.takeWhile p := by
  induction X with
  | nil => rfl
  | cons c cs ih =>
    rw [List.cons_append, List.takeWhile_cons, if_pos (by rw [h c (by simp)])]
    rw [ih (fun d hd => h d (by simp [hd])), List.cons_append]

theorem takeWhile_cons_of_neg {p : Char → Bool} {c : Char} (cs : Str)
    (h : p c = false) : (c :: cs).takeWhile p = [] := by
  rw [List.takeWhile_cons, if_neg (by rw [h]; exact Bool.false_ne_true)]

theorem p0_ssGo_R_phase {rest : Str} :
    ∀ (R accR : Str), (∀ c ∈ R, isTerm c = false) →
      P0.ssGo (R ++ rest) accR [] = P0.ssGo rest (R.reverse ++ accR) [] := by
  intro R
  induction R with
  | nil => intro accR _; simp
  | cons c cs ih =>
    intro accR h
    rw [List.cons_append]
    conv_lhs => rw [P0.ssGo.eq_def]
    dsimp only
    rw [if_pos (show List.isEmpty ([] : Str) = true from rfl), if_neg (by simp [h c (by simp)])]
    rw [ih (c :: accR) (fun d hd => h d (by simp [hd]))]
    congr 1
    simp

theorem p0_ssGo_term_step {c : Char} {cs accR : Str}
    (hc : isTerm c = true) (hR : accR ≠ []) :
    P0.ssGo (c :: cs) accR [] = P0.ssGo cs accR [c] := by
  conv_lhs => rw [P0.ssGo.eq_def]
  dsimp only
  rw [if_pos (show List.isEmpty ([] : Str) = true from rfl), if_pos hc, if_neg (by simpa [List.isEmpty_iff] using hR)]

theorem p0_ssGo_emit {c : Char} {cs accR accT : Str}
    (hT : accT ≠ []) (hc : isTerm c = false) :
    P0.ssGo (c :: cs) accR accT =
      (accR.reverse ++ accT.reverse) :: P0.ssGo cs [c] [] := by
  conv_lhs => rw [P0.ssGo.eq_def]
  dsimp only
  rw [if_neg (by simpa [List.isEmpty_iff] using hT), if_neg (by simp [hc])]

theorem p0_ssGo_end {accR accT : Str} (hT : accT ≠ []) :
    P0.ssGo [] accR accT = [accR.reverse ++ accT.reverse] := by
  conv_lhs => rw [P0.ssGo.eq_def]
  dsimp only
  rw [if_neg (by simpa [List.isEmpty_iff] using hT)]

theorem replicate_all_nonterm {k : Nat} {x : Char} (hx : isTerm x = false) :
    ∀ c ∈ List.replicate k x, isTerm c = false := by
  intro c hc
  rw [List.eq_of_mem_replicate hc]
  exact hx

set_option maxRecDepth 10000 in
/-- The sentence scan of the 1511-character three-sentence buffer used in the
C3 counterexample. -/
theorem p0_split_c3_buffer :
    P0.ssGo (List.replicate 749 'a' ++ '.' :: (List.replicate 749 'b' ++ '.' ::
      (List.replicate 10 'c' ++ ['.']))) [] [] =
      [List.replicate 749 'a' ++ ['.'], List.replicate 749 'b' ++ ['.'],
       List.replicate 10 'c' ++ ['.']] := by
  rw [p0_ssGo_R_phase (List.replicate 749 'a') [] (replicate_all_nonterm (by decide))]
  rw [p0_ssGo_term_step (by decide) (by simp [List.replicate_eq_nil_iff])]
  rw [show List.replicate 749 'b' ++ '.' :: (List.replicate 10 'c' ++ ['.']) =
      'b' :: (List.replicate 748 'b' ++ '.' :: (List.replicate 10 'c' ++ ['.'])) from by
    rw [show (749 : Nat) = 748 + 1 from rfl, List.replicate_succ, List.cons_append]]
  rw [p0_ssGo_emit (by simp) (by decide)]
  rw [p0_ssGo_R_phase (List.replicate 748 'b') ['b'] (replicate_all_nonterm (by decide))]
  rw [p0_ssGo_term_step (by decide) (by simp)]
  rw [show List.replicate 10 'c' ++ ['.'] =
      'c' :: (List.replicate 9 'c' ++ ['.']) from by
    rw [show (10 : Nat) = 9 + 1 from rfl, List.replicate_succ, List.cons_append]]
  rw [p0_ssGo_emit (by simp) (by decide)]
  rw [p0_ssGo_R_phase (List.replicate 9 'c') ['c'] (replicate_all_nonterm (by decide))]
  rw [show (['.'] : Str) = '.' :: [] from rfl]
  rw [p0_ssGo_term_step (by decide) (by simp)]
  rw [p0_ssGo_end (by simp)]
  rw [List.reverse_replicate]
  rw [show (List.replicate 748 'b').reverse ++ ['b'] = List.replicate 749 'b' from by
    rw [List.reverse_replicate, ← List.replicate_succ']
  ]
  rw [show (List.replicate 9 'c').reverse ++ ['c'] = List.replicate 10 'c' from by
    rw [List.reverse_replicate, ← List.replicate_succ']
  ]
  simp

theorem p0_packGo_nil_push {sp temp : Str} (h : temp ≠ []) :
    P0.packGo sp [] temp = [⟨sp, temp⟩] := by
  conv_lhs => rw [P0.packGo.eq_def]
  dsimp only
  rw [if_neg (by simpa [List.isEmpty_iff] using h)]

theorem p0_packGo_step_fit {sp temp s : Str} {rest : List Str}
    (h : ¬ P0.MAX_CHARS < (temp ++ s).length) :
    P0.packGo sp (s :: rest) temp =
      P0.packGo sp rest (if temp.isEmpty then s else temp ++ ' ' :: s) := by
  conv_lhs => rw [P0.packGo.eq_def]
  dsimp only
  rw [if_neg h]

theorem p0_packGo_step_over {sp temp s : Str} {rest : List Str}
    (h : P0.MAX_CHARS < (temp ++ s).length) :
    P0.packGo sp (s :: rest) temp = ⟨sp, temp⟩ :: P0.packGo sp rest s := by
  conv_lhs => rw [P0.packGo.eq_def]
  dsimp only
  rw [if_pos h]

theorem c3_t_chars :
    ∀ c ∈ List.replicate 749 'a' ++ '.' :: (List.replicate 749 'b' ++ '.' ::
      (List.replicate 10 'c' ++ ['.'])), c = 'a' ∨ c = 'b' ∨ c = 'c' ∨ c = '.' := by
  intro c hc
  rcases List.mem_append.1 hc with hc | hc
  · exact Or.inl (List.eq_of_mem_replicate hc)
  · rcases List.mem_cons.1 hc with hc | hc
    · exact Or.inr (Or.inr (Or.inr hc))
    · rcases List.mem_append.1 hc with hc | hc
      · exact Or.inr (Or.inl (List.eq_of_mem_replicate hc))
      · rcases List.mem_cons.1 hc with hc | hc
        · exact Or.inr (Or.inr (Or.inr hc))
        · rcases List.mem_append.1 hc with hc | hc
          · exact Or.inr (Or.inr (Or.inl (List.eq_of_mem_replicate hc)))
          · rcases List.mem_cons.1 hc with hc | hc
            · exact Or.inr (Or.inr (Or.inr hc))
            · simp at hc

theorem c3_t_no_ws :
    ∀ c ∈ List.replicate 749 'a' ++ '.' :: (List.replicate 749 'b' ++ '.' ::
      (List.replicate 10 'c' ++ ['.'])), isWs c = false := by
  intro c hc
  rcases c3_t_chars c hc with h | h | h | h <;> rw [h] <;> rfl

theorem c3_t_length :
    (List.replicate 749 'a' ++ '.' :: (List.replicate 749 'b' ++ '.' ::
      (List.replicate 10 'c' ++ ['.']))).length = 1511 := by
  simp only [List.length_append, List.length_cons, List.length_replicate, List.length_nil]

theorem c3_t_speakerMatch :
    P0.speakerMatch (List.replicate 749 'a' ++ '.' :: (List.replicate 749 'b' ++ '.' ::
      (List.replicate 10 'c' ++ ['.']))) = none := by
  unfold P0.speakerMatch
  rw [takeWhile_append_of_all _ (by
    intro c hc
    rw [List.eq_of_mem_replicate hc]
    rfl)]
  rw [takeWhile_cons_of_neg _ (by rfl)]
  rw [List.append_nil]
  dsimp only
  have hne : (List.replicate 749 'a').isEmpty = false := by
    rw [List.isEmpty_eq_false_iff_exists_mem]
    refine ⟨'a', ?_⟩
    rw [List.mem_replicate]
    exact ⟨by norm_num, rfl⟩
  rw [hne]
  simp only [Bool.false_eq_true, if_false]
  rw [List.drop_left]
  simp

theorem p0_parseLines_nil (sp buf : Str) :
    P0.parseLines [] sp buf = if (trim buf).isEmpty then [] else [⟨sp, trim buf⟩] := by
  rfl

theorem p0_parseLines_cons_none {l : Str} {ls : List Str} {sp buf : Str}
    (hm : P0.speakerMatch l = none) (hl : (trim l).isEmpty = false) :
    P0.parseLines (l :: ls) sp buf = P0.parseLines ls sp (buf ++ ' ' :: trim l) := by
  conv_lhs => rw [P0.parseLines.eq_def]
  dsimp only
  rw [hm]
  dsimp only
  rw [hl]
  simp

/-- First-pass segmentation of the C3 counterexample input: one Narrator
block holding the whole 1511-character line. -/
theorem c3_t_firstpass :
    P0.parseLines [List.replicate 749 'a' ++ '.' :: (List.replicate 749 'b' ++ '.' ::
        (List.replicate 10 'c' ++ ['.']))] ("Narrator".toList) [] =
      [⟨"Narrator".toList, List.replicate 749 'a' ++ '.' :: (List.replicate 749 'b' ++ '.' ::
        (List.replicate 10 'c' ++ ['.']))⟩] := by
  have htr : trim (List.replicate 749 'a' ++ '.' :: (List.replicate 749 'b' ++ '.' ::
      (List.replicate 10 'c' ++ ['.']))) =
      List.replicate 749 'a' ++ '.' :: (List.replicate 749 'b' ++ '.' ::
        (List.replicate 10 'c' ++ ['.'])) :=
    trim_eq_self_of_all c3_t_no_ws
  have hne : (List.replicate 749 'a' ++ '.' :: (List.replicate 749 'b' ++ '.' ::
      (List.replicate 10 'c' ++ ['.']))) ≠ [] := by
    intro hcon
    have := congrArg List.length hcon
    rw [c3_t_length] at this
    simp at this
  rw [p0_parseLines_cons_none c3_t_speakerMatch (by
    rw [htr]
    rw [List.isEmpty_eq_false_iff_exists_mem]
    exact ⟨'a', by
      apply List.mem_append.2
      left
      rw [List.mem_replicate]
      exact ⟨by norm_num, rfl⟩⟩)]
  rw [p0_parseLines_nil]
  rw [htr, List.nil_append, trim_cons_ws (by rfl), htr]
  rw [if_neg (by
    rw [List.isEmpty_iff]
    exact hne)]

set_option maxRecDepth 10000 in
/-- Packing the three sentence units of the C3 counterexample buffer: the
budget test ignores the joining space, so the first two 750-character units
are joined into a 1501-character chunk. -/
theorem c3_t_pack :
    P0.packGo ("Narrator".toList)
        [List.replicate 749 'a' ++ ['.'], List.replicate 749 'b' ++ ['.'],
         List.replicate 10 'c' ++ ['.']] [] =
      [⟨"Narrator".toList,
        (List.replicate 749 'a' ++ ['.']) ++ ' ' :: (List.replicate 749 'b' ++ ['.'])⟩,
       ⟨"Narrator".toList, List.replicate 10 'c' ++ ['.']⟩] := by
  rw [p0_packGo_step_fit (by
    rw [List.nil_append]
    simp only [P0.MAX_CHARS, List.length_append, List.length_replicate, List.length_cons,
      List.length_nil]
    norm_num)]
  rw [if_pos (show List.isEmpty ([] : Str) = true from rfl)]
  rw [p0_packGo_step_fit (by
    simp only [P0.MAX_CHARS, List.length_append, List.length_replicate, List.length_cons,
      List.length_nil]
    norm_num)]
  rw [if_neg (by
    intro hcon
    rw [List.isEmpty_eq_true] at hcon
    have := congrArg List.length hcon
    simp only [List.length_append, List.length_replicate, List.length_cons,
      List.length_nil] at this
    omega)]
  rw [p0_packGo_step_over (by
    simp only [P0.MAX_CHARS, List.length_append, List.length_replicate, List.length_cons,
      List.length_nil]
    norm_num)]
  rw [p0_packGo_nil_push (by
    intro hcon
    have := congrArg List.length hcon
    simp only [List.length_append, List.length_replicate, List.length_cons,
      List.length_nil] at this
    omega)]

set_option maxRecDepth 10000 in
/-- Claim C3 (counterexample): the part_000 segmenter emits a 1501-character
segment that is not a single sentence-like unit — its greedy packer tests the
budget on the raw concatenation but then joins with an extra space. The input
is a single 1511-character line holding three sentences of 750, 750 and 11
characters. -/
theorem c3_counterexample :
    (P0.parseDialogueIntoChunks (List.replicate 749 'a' ++ '.' ::
        (List.replicate 749 'b' ++ '.' :: (List.replicate 10 'c' ++ ['.'])))).map Block.text =
      [(List.replicate 749 'a' ++ ['.']) ++ ' ' :: (List.replicate 749 'b' ++ ['.']),
       List.replicate 10 'c' ++ ['.']] ∧
    ((List.replicate 749 'a' ++ ['.']) ++ ' ' :: (List.replicate 749 'b' ++ ['.'])).length =
      1501 ∧
    1500 < 1501 ∧
    P0.unitLike ((List.replicate 749 'a' ++ ['.']) ++
      ' ' :: (List.replicate 749 'b' ++ ['.'])) = false := by
  refine ⟨?_, ?_, by norm_num, ?_⟩
  · unfold P0.parseDialogueIntoChunks
    rw [splitLines_no_newline (by
      intro c hc
      rcases c3_t_chars c hc with h | h | h | h <;> rw [h] <;> decide)]
    rw [c3_t_firstpass]
    rw [show ∀ b : Block, ([b] : List Block).flatMap P0.splitChunk = P0.splitChunk b from by
      intro b
      simp]
    unfold P0.splitChunk
    rw [if_pos (by
      rw [c3_t_length]
      simp [P0.MAX_CHARS])]
    rw [show P0.sentencesOf (List.replicate 749 'a' ++ '.' :: (List.replicate 749 'b' ++
        '.' :: (List.replicate 10 'c' ++ ['.']))) =
        [List.replicate 749 'a' ++ ['.'], List.replicate 749 'b' ++ ['.'],
         List.replicate 10 'c' ++ ['.']] from by
      unfold P0.sentencesOf
      rw [p0_split_c3_buffer]]
    rw [c3_t_pack]
    rfl
  · simp only [List.length_append, List.length_replicate, List.length_cons, List.length_nil]
  · unfold P0.unitLike
    rw [show (List.replicate 749 'a' ++ ['.']) ++ ' ' :: (List.replicate 749 'b' ++ ['.']) =
        List.replicate 749 'a' ++ ('.' :: ' ' :: (List.replicate 749 'b' ++ ['.'])) from by
      simp]
    rw [dropWhile_append_of_all _ (by
      intro c hc
      rw [List.eq_of_mem_replicate hc]
      rfl)]
    rw [dropWhile_cons_of_neg (by decide)]
    rw [List.dropWhile_cons, if_pos (by decide)]
    rw [dropWhile_cons_of_neg (by decide)]
    rfl

/-- Every block emitted by the geminiService segmenter is within the 1500
budget or a single sentence-like unit (up to trim). -/
theorem gs_parse_budget (text : Str) :
    ∀ b ∈ GS.parseDialogueIntoChunks text,
      b.text.length ≤ 1500 ∨ isTrimmedUnit b.text = true := by
  intro b hb
  unfold GS.parseDialogueIntoChunks at hb
  dsimp only at hb
  by_cases hcond :
      ((GS.parseLines (splitLines text) GS.narrator []).isEmpty &&
        !(trim text).isEmpty) = true
  · rw [if_pos hcond] at hb
    exact gs_pushBuffer_budget GS.narrator text b hb
  · rw [if_neg hcond] at hb
    rcases gs_parseLines_mem (splitLines text) GS.narrator [] b hb with ⟨sp2, buf2, hb2⟩
    exact gs_pushBuffer_budget sp2 buf2 b hb2

/-- Claim C3: the geminiService segmenter keeps every emitted segment within
the 1500-character budget except single sentence-like units emitted whole; the
part_000 segmenter guarantees only 1501 (its budget check ignores the joining
space it inserts), again except single sentence-like units. -/
theorem c3_budget_bounds :
    (∀ (text : Str), ∀ b ∈ GS.parseDialogueIntoChunks text,
        b.text.length ≤ GS.MAX_CHAR_LIMIT ∨ isTrimmedUnit b.text = true) ∧
    (∀ (text : Str), ∀ b ∈ P0.parseDialogueIntoChunks text,
        b.text.length ≤ P0.MAX_CHARS + 1 ∨ P0.unitLike b.text = true) :=
  ⟨fun text b hb => gs_parse_budget text b hb,
   fun text b hb => p0_parse_budget text b hb⟩

/-- Witness for C3 at the input `Alice: Hi.`. -/
theorem c3_witness :
    ((⟨"Alice".toList, "Hi.".toList⟩ : Block) ∈
        GS.parseDialogueIntoChunks ("Alice: Hi.".toList) ∧
      ((Block.text ⟨"Alice".toList, "Hi.".toList⟩).length ≤ GS.MAX_CHAR_LIMIT ∨
        isTrimmedUnit (Block.text ⟨"Alice".toList, "Hi.".toList⟩) = true)) ∧
    ((⟨"Alice".toList, "Hi.".toList⟩ : Block) ∈
        P0.parseDialogueIntoChunks ("Alice: Hi.".toList) ∧
      ((Block.text ⟨"Alice".toList, "Hi.".toList⟩).length ≤ P0.MAX_CHARS + 1 ∨
        P0.unitLike (Block.text ⟨"Alice".toList, "Hi.".toList⟩) = true)) :=
  ⟨⟨by decide, c3_budget_bounds.1 ("Alice: Hi.".toList) _ (by decide)⟩,
   ⟨by decide, c3_budget_bounds.2 ("Alice: Hi.".toList) _ (by decide)⟩⟩

/-! ## C5: content preservation of the geminiService segmenter -/

theorem stripWs_eq_self_of_all {s : Str} (h : ∀ c ∈ s, isWs c = false) :
    stripWs s = s :=
  List.filter_eq_self.mpr (fun c hc => by rw [h c hc]; rfl)

/-- One `pushBuffer` call on an in-budget buffer loses no non-whitespace
content. -/
theorem gs_pushBuffer_content (sp buf : Str) (h : buf.length ≤ 1500) :
    stripWs (((GS.pushBuffer sp buf).map Block.text).flatten) = stripWs buf := by
  unfold GS.pushBuffer
  by_cases he : (trim buf).isEmpty = true
  · rw [if_pos he]
    rw [stripWs_of_trim_nil (List.isEmpty_iff.1 he)]
    rfl
  · rw [if_neg he, if_neg (by simp [GS.MAX_CHAR_LIMIT]; omega)]
    simp only [List.map_cons, List.map_nil, List.flatten_cons, List.flatten_nil,
      List.append_nil]
    exact stripWs_trim buf

/-- Invariant of the per-line loop: as long as every flushed buffer stays in
budget, the non-whitespace content of the emitted blocks is the pending buffer
followed by the speaker-attributed content of the remaining lines. -/
theorem gs_parseLines_content :
    ∀ (ls : List Str) (sp buf : Str),
      (∀ b ∈ GS.flushedBuffers ls buf, b.length ≤ 1500) →
      stripWs (((GS.parseLines ls sp buf).map Block.text).flatten) =
        stripWs buf ++ stripWs ((ls.map GS.specLineContent).flatten) := by
  intro ls
  induction ls with
  | nil =>
    intro sp buf h
    have hb : buf.length ≤ 1500 := h buf (by unfold GS.flushedBuffers; simp)
    show stripWs (((GS.pushBuffer sp buf).map Block.text).flatten) = _
    rw [gs_pushBuffer_content sp buf hb]
    simp [stripWs]
  | cons l ls ih =>
    intro sp buf h
    cases hm : GS.speakerMatch l with
    | some nr =>
      rcases nr with ⟨name, rest⟩
      have hfl : GS.flushedBuffers (l :: ls) buf =
          buf :: GS.flushedBuffers ls (rest ++ [' ']) := by
        simp only [GS.flushedBuffers, hm]
      have hpl : GS.parseLines (l :: ls) sp buf =
          GS.pushBuffer sp buf ++
            GS.parseLines ls (GS.canonSpeaker (trim name)) (rest ++ [' ']) := by
        simp only [GS.parseLines, hm]
      have hb : buf.length ≤ 1500 := h buf (by rw [hfl]; simp)
      have htail : ∀ b ∈ GS.flushedBuffers ls (rest ++ [' ']), b.length ≤ 1500 := by
        intro b hbm
        exact h b (by rw [hfl]; simp [hbm])
      have hcl : GS.specLineContent l = rest := by
        simp only [GS.specLineContent, hm]
      have hsp : stripWs ([' '] : Str) = [] := rfl
      rw [hpl, List.map_append, List.flatten_append, stripWs_append,
        gs_pushBuffer_content sp buf hb, ih _ _ htail]
      simp only [List.map_cons, List.flatten_cons, stripWs_append, hcl, hsp,
        List.append_nil, List.append_assoc]
    | none =>
      have hcl : GS.specLineContent l = l := by
        simp only [GS.specLineContent, hm]
      by_cases he : (trim l).isEmpty = true
      · have hfl : GS.flushedBuffers (l :: ls) buf = GS.flushedBuffers ls buf := by
          simp only [GS.flushedBuffers, hm]
          rw [if_pos he]
        have hpl : GS.parseLines (l :: ls) sp buf = GS.parseLines ls sp buf := by
          simp only [GS.parseLines, hm]
          rw [if_pos he]
        rw [hpl, ih sp buf (by rw [← hfl]; exact h)]
        rw [List.map_cons, List.flatten_cons, stripWs_append, hcl,
          stripWs_of_trim_nil (List.isEmpty_iff.1 he), List.nil_append]
      · have hfl : GS.flushedBuffers (l :: ls) buf =
            GS.flushedBuffers ls (buf ++ trim l ++ ['\n']) := by
          simp only [GS.flushedBuffers, hm]
          rw [if_neg he]
        have hpl : GS.parseLines (l :: ls) sp buf =
            GS.parseLines ls sp (buf ++ trim l ++ ['\n']) := by
          simp only [GS.parseLines, hm]
          rw [if_neg he]
        have hnl : stripWs (['\n'] : Str) = [] := rfl
        rw [hpl, ih sp _ (by rw [← hfl]; exact h)]
        simp only [List.map_cons, List.flatten_cons, stripWs_append, stripWs_trim,
          hcl, hnl, List.append_nil, List.append_assoc]

theorem c5_qa_chars : ∀ c ∈ ('?' :: List.replicate 1501 'a'), c = '?' ∨ c = 'a' := by
  intro c hc
  rcases List.mem_cons.1 hc with h | h
  · exact Or.inl h
  · exact Or.inr (List.eq_of_mem_replicate h)

set_option maxRecDepth 20000 in
theorem c5_qa_speakerMatch :
    GS.speakerMatch ('?' :: List.replicate 1501 'a') = none := by
  have h1 : List.takeWhile (fun x => decide (x = '*')) ('?' :: List.replicate 1501 'a') = [] :=
    takeWhile_cons_of_neg _ (by decide)
  have h2 : List.takeWhile GS.isNameChar ('?' :: List.replicate 1501 'a') = [] :=
    takeWhile_cons_of_neg _ (by decide)
  unfold GS.speakerMatch
  simp only [h1, List.length_nil, List.drop_zero, h2]
  simp

set_option maxRecDepth 20000 in
theorem c5_qa_lines :
    splitLines ('?' :: List.replicate 1501 'a') = ['?' :: List.replicate 1501 'a'] :=
  splitLines_no_newline (by
    intro c hc
    rcases c5_qa_chars c hc with h | h <;> rw [h] <;> decide)

set_option maxRecDepth 20000 in
theorem c5_qa_trim :
    trim ('?' :: List.replicate 1501 'a') = '?' :: List.replicate 1501 'a' :=
  trim_eq_self_of_all (fun c hc => by
    rcases c5_qa_chars c hc with h | h <;> rw [h] <;> rfl)

/-- Trimming a newline-terminated buffer of non-whitespace content drops only
the newline. -/
theorem trim_append_nl_of_all {s : Str} (h : ∀ c ∈ s, isWs c = false)
    (hne : s ≠ []) : trim (s ++ ['\n']) = s := by
  unfold trim
  have h1 : (s ++ ['\n']).dropWhile isWs = s ++ ['\n'] := by
    cases s with
    | nil => exact absurd rfl hne
    | cons c cs =>
      rw [List.cons_append]
      exact dropWhile_cons_of_neg (h c (by simp))
  rw [h1, List.reverse_append]
  rw [show (['\n'] : Str).reverse = ['\n'] from rfl, List.singleton_append]
  rw [List.dropWhile_cons, if_pos (by decide)]
  rw [dropWhile_eq_self_of_all (by
    intro c hc
    exact h c (by simpa using hc))]
  exact List.reverse_reverse s

set_option maxRecDepth 20000 in
theorem c5_qa_trim_buf :
    trim (('?' :: List.replicate 1501 'a') ++ ['\n']) = '?' :: List.replicate 1501 'a' :=
  trim_append_nl_of_all
    (fun c hc => by rcases c5_qa_chars c hc with h | h <;> rw [h] <;> rfl)
    (by simp)

set_option maxRecDepth 20000 in
theorem c5_qa_trim_unit :
    trim (List.replicate 1501 'a' ++ ['\n']) = List.replicate 1501 'a' :=
  trim_append_nl_of_all
    (fun c hc => by rw [List.eq_of_mem_replicate hc]; rfl)
    (by
      intro hcon
      have := congrArg List.length hcon
      simp at this)

set_option maxRecDepth 20000 in
theorem c5_qa_sentences :
    GS.sentencesOf (('?' :: List.replicate 1501 'a') ++ ['\n']) =
      [List.replicate 1501 'a' ++ ['\n']] := by
  have hnt : ∀ c ∈ List.replicate 1501 'a' ++ ['\n'], isTerm c = false := by
    intro c hc
    rcases List.mem_append.1 hc with h | h
    · rw [List.eq_of_mem_replicate h]
      rfl
    · simp at h
      rw [h]
      rfl
  have hne : List.replicate 1501 'a' ++ ['\n'] ≠ [] := by simp
  have hstep : GS.ssGo (('?' :: List.replicate 1501 'a') ++ ['\n']) [] [] =
      GS.ssGo (List.replicate 1501 'a' ++ ['\n']) [] [] := by
    rw [List.cons_append]
    conv_lhs => rw [GS.ssGo.eq_def]
    dsimp only
    rw [if_pos (show List.isEmpty ([] : Str) = true from rfl)]
    rw [if_pos (show isTerm '?' = true from by decide)]
    rw [if_pos (show List.isEmpty ([] : Str) = true from rfl)]
  unfold GS.sentencesOf GS.splitSentences
  rw [hstep, gs_ssGo_all_nonterm [] hnt (Or.inr hne)]
  simp

set_option maxRecDepth 20000 in
theorem c5_qa_pack :
    GS.packGo GS.narrator [List.replicate 1501 'a' ++ ['\n']] [] =
      [⟨GS.narrator, []⟩, ⟨GS.narrator, List.replicate 1501 'a'⟩] := by
  conv_lhs => rw [GS.packGo.eq_def]
  dsimp only
  rw [if_pos (by
    simp only [GS.MAX_CHAR_LIMIT, List.nil_append, List.length_append,
      List.length_replicate, List.length_cons, List.length_nil]
    norm_num)]
  rw [show trim ([] : Str) = [] from rfl]
  rw [GS.packGo.eq_def]
  dsimp only
  rw [c5_qa_trim_unit]
  rw [if_neg (by
    intro hcon
    rw [List.isEmpty_iff] at hcon
    have := congrArg List.length hcon
    simp at this)]

set_option maxRecDepth 20000 in
theorem c5_qa_parse :
    GS.parseDialogueIntoChunks ('?' :: List.replicate 1501 'a') =
      [⟨GS.narrator, []⟩, ⟨GS.narrator, List.replicate 1501 'a'⟩] := by
  have hpl : GS.parseLines ['?' :: List.replicate 1501 'a'] GS.narrator [] =
      GS.pushBuffer GS.narrator (('?' :: List.replicate 1501 'a') ++ ['\n']) := by
    simp only [GS.parseLines, c5_qa_speakerMatch]
    rw [if_neg (by
      rw [c5_qa_trim]
      simp)]
    rw [c5_qa_trim, List.nil_append]
  have hpb : GS.pushBuffer GS.narrator (('?' :: List.replicate 1501 'a') ++ ['\n']) =
      [⟨GS.narrator, []⟩, ⟨GS.narrator, List.replicate 1501 'a'⟩] := by
    unfold GS.pushBuffer
    rw [if_neg (by
      rw [c5_qa_trim_buf]
      simp)]
    rw [if_pos (by
      simp only [GS.MAX_CHAR_LIMIT, List.length_append, List.length_replicate,
        List.length_cons, List.length_nil]
      norm_num)]
    rw [c5_qa_sentences, c5_qa_pack]
  unfold GS.parseDialogueIntoChunks
  dsimp only
  rw [c5_qa_lines, hpl, hpb]
  rw [if_neg (by simp)]

/-- Claim C5: in the geminiService implementation, when every buffer handed to
`pushBuffer` stays within the 1500-character budget and the per-line loop emits
at least one block, the concatenated texts of the emitted segments reconstruct
the speaker-attributed content of the input exactly, in order, up to
whitespace. -/
theorem c5_content_reconstruction (text : Str)
    (H1 : ∀ b ∈ GS.flushedBuffers (splitLines text) [], b.length ≤ 1500)
    (H2 : GS.parseLines (splitLines text) GS.narrator [] ≠ []) :
    stripWs (((GS.parseDialogueIntoChunks text).map Block.text).flatten) =
      stripWs (GS.specAttributedContent text) := by
  unfold GS.parseDialogueIntoChunks
  dsimp only
  rw [if_neg (by
    simp only [Bool.and_eq_true, List.isEmpty_eq_true]
    rintro ⟨hc, -⟩
    exact H2 hc)]
  rw [gs_parseLines_content (splitLines text) GS.narrator [] H1]
  unfold GS.specAttributedContent
  rfl

set_option maxRecDepth 20000 in
/-- Claim C5 (counterexample): two inputs on which the emitted texts do NOT
reconstruct the speaker-attributed content. For a 1502-character line starting
with `?`, the sentence-split regex silently drops the leading terminator (it
cannot start a unit), losing a character. For the line `Alice:`, the per-line
loop emits no block, and the fallback re-emits the raw text including the
speaker label that the spec content excludes. -/
theorem c5_counterexample :
    stripWs (((GS.parseDialogueIntoChunks ('?' :: List.replicate 1501 'a')).map
        Block.text).flatten) ≠
      stripWs (GS.specAttributedContent ('?' :: List.replicate 1501 'a')) ∧
    stripWs (((GS.parseDialogueIntoChunks ("Alice:".toList)).map Block.text).flatten) ≠
      stripWs (GS.specAttributedContent ("Alice:".toList)) := by
  constructor
  · have hL : stripWs ((([⟨GS.narrator, ([] : Str)⟩,
        ⟨GS.narrator, List.replicate 1501 'a'⟩] : List Block).map Block.text).flatten) =
        List.replicate 1501 'a' := by
      simp only [List.map_cons, List.map_nil, List.flatten_cons, List.flatten_nil,
        List.append_nil, List.nil_append]
      exact stripWs_eq_self_of_all (fun c hc => by rw [List.eq_of_mem_replicate hc]; rfl)
    have hR : stripWs (GS.specAttributedContent ('?' :: List.replicate 1501 'a')) =
        '?' :: List.replicate 1501 'a' := by
      unfold GS.specAttributedContent
      rw [c5_qa_lines]
      simp only [List.map_cons, List.map_nil, List.flatten_cons, List.flatten_nil,
        List.append_nil]
      rw [show GS.specLineContent ('?' :: List.replicate 1501 'a') =
          '?' :: List.replicate 1501 'a' from by
        simp only [GS.specLineContent, c5_qa_speakerMatch]]
      exact stripWs_eq_self_of_all (fun c hc => by
        rcases c5_qa_chars c hc with h | h <;> rw [h] <;> rfl)
    rw [c5_qa_parse, hL, hR]
    intro hcon
    have := congrArg List.length hcon
    simp only [List.length_replicate, List.length_cons] at this
    omega
  · decide

/-- Witness for C5 at the two-speaker input `Alice: Hello there.` newline
`Bob: Hi Alice!`. -/
theorem c5_witness :
    (∀ b ∈ GS.flushedBuffers
        (splitLines ("Alice: Hello there.\nBob: Hi Alice!".toList)) [],
      b.length ≤ 1500) ∧
    GS.parseLines (splitLines ("Alice: Hello there.\nBob: Hi Alice!".toList))
      GS.narrator [] ≠ [] ∧
    stripWs (((GS.parseDialogueIntoChunks
        ("Alice: Hello there.\nBob: Hi Alice!".toList)).map Block.text).flatten) =
      stripWs (GS.specAttributedContent ("Alice: Hello there.\nBob: Hi Alice!".toList)) :=
  ⟨by decide, by decide,
   c5_content_reconstruction ("Alice: Hello there.\nBob: Hi Alice!".toList)
     (by decide) (by decide)⟩

end FBot
